import Mathlib

/-!
Verification of the lixqa-api-client generator and runtime client.

Shallow embedding of the TypeScript sources of the `lixqa-api-client`
repository, together with theorems settling the specification claims.

The embedding keeps the source structure and names:

* `src/bin/generator/name-generator.ts`: `toPascalCase`, `generateTypeName`,
  `generateParamsTypeName`;
* `src/bin/generator/code-generator.ts` (tree-builder / route processing
  sections): `buildCompleteTree`, `insertRoute`, `processRoutes`;
* the type converter (`type-converter.ts`): `zodDefToTypeScript`,
  `hasRequiredFields`, `hasFileUploads`, `getFileUploadInfo`,
  `generateMethodSignature`;
* `src/lib/base-client.ts` (retry variant): the per-request attempt loop with
  rate-limit retry, body parsing and error classification;
* `src/lib/errors.ts`: `ValidationError.flatten` /
  `getErrorMessagesByPath`.

JavaScript dynamic values (schemas, settings, response bodies) are modelled by
a JSON value type; JS `Map`s (insertion-ordered) are modelled by association
lists with JS `Map.set` semantics.
-/

namespace LixqaApiClient

/-- JSON-like values: the JavaScript data the generator and the runtime client
manipulate (fetched schemas, route settings, response bodies). -/
inductive JsonValue where
  | null
  | bool (b : Bool)
  | num (n : Int)
  | str (s : String)
  | arr (elems : List JsonValue)
  | obj (fields : List (String × JsonValue))
deriving Repr

/-- JS truthiness of a possibly-`undefined` value (`none` models
`undefined`): `undefined`, `null`, `false`, `0` and `""` are falsy. -/
def jsTruthy : Option JsonValue → Bool
  | none => false
  | some .null => false
  | some (.bool b) => b
  | some (.num n) => n != 0
  | some (.str s) => s != ""
  | some (.arr _) => true
  | some (.obj _) => true

/-- JS property access `v[k]` on a JSON value: defined (first match) on
objects, `undefined` otherwise. -/
def jsGetField : JsonValue → String → Option JsonValue
  | .obj fields, k => fields.lookup k
  | _, _ => none

/-- JS optional-chained property access `v?.[k]`. -/
def jsGetFieldOpt (v : Option JsonValue) (k : String) : Option JsonValue :=
  match v with
  | none => none
  | some v => jsGetField v k

/-- `typeof v === 'object'` in JS: `null`, arrays and objects. -/
def jsTypeofObject : JsonValue → Bool
  | .null => true
  | .arr _ => true
  | .obj _ => true
  | _ => false

/-! ## Character-level string operations

The JS string operations the sources use (`split`, `startsWith`,
`toLowerCase`, `toUpperCase`, `includes`, `trim`, `parseInt`) are modelled at
the character-list level so that every definition evaluates by kernel
reduction on concrete inputs. -/

/-- JS `s.startsWith(pre)`. -/
def strStartsWith (s pre : String) : Bool := pre.data.isPrefixOf s.data

/-- JS `s.toLowerCase()` (ASCII, as the sources use it). -/
def strToLower (s : String) : String := String.mk (s.data.map Char.toLower)

/-- JS `s.toUpperCase()` (ASCII, as the sources use it). -/
def strToUpper (s : String) : String := String.mk (s.data.map Char.toUpper)

/-- Split a character list at every occurrence of `c` (JS
`String.prototype.split` with a single-character separator); `cur` holds the
current chunk in reverse. -/
def splitOnCharAux (c : Char) : List Char → List Char → List (List Char)
  | [], cur => [cur.reverse]
  | x :: xs, cur =>
      if x = c then cur.reverse :: splitOnCharAux c xs []
      else splitOnCharAux c xs (x :: cur)

/-- JS `s.split(c)` for a one-character separator. -/
def strSplitOnChar (s : String) (c : Char) : List String :=
  (splitOnCharAux c s.data []).map String.mk

/-- JS `Map.get` on an insertion-ordered map modelled as an association
list. -/
def mapGet (l : List (String × α)) (k : String) : Option α :=
  match l with
  | [] => none
  | (k', v) :: rest => if k' = k then some v else mapGet rest k

/-- JS `Map.set`: updates the value in place when the key is present,
otherwise appends the new entry at the end (insertion order). -/
def mapSet (l : List (String × α)) (k : String) (v : α) : List (String × α) :=
  match l with
  | [] => [(k, v)]
  | (k', v') :: rest => if k' = k then (k, v) :: rest else (k', v') :: mapSet rest k v

/-- The keys of an association-list map, in order. -/
def mapKeys (l : List (String × α)) : List String := l.map Prod.fst

/-- `route.path.split('/').filter(Boolean)`: path split on `/` with empty
segments discarded. -/
def pathSegments (path : String) : List String :=
  (strSplitOnChar path '/').filter (fun s => s ≠ "")

/-- A path segment is a parameter segment when it starts with `:`. -/
def isParamSegment (s : String) : Bool := strStartsWith s ":"

/-! ## Route data model

`Route` is the raw fetched route (`fetch-schema.ts` / `name-generator.ts`
interface: `methods` optional); `ProcessedRoute` is the tree-builder `Route`
with `methods` guaranteed. `schema` and `settings` are opaque JSON. -/

structure Route where
  path : String
  methods : Option (List String) := none
  schema : Option JsonValue := none
  settings : Option JsonValue := none
deriving Repr

structure ProcessedRoute where
  path : String
  methods : List String
  schema : Option JsonValue := none
  settings : Option JsonValue := none
deriving Repr

/-- The raw route underlying a processed route (`{...route, methods}`). -/
def ProcessedRoute.toRoute (r : ProcessedRoute) : Route :=
  { path := r.path, methods := some r.methods, schema := r.schema,
    settings := r.settings }

/-! ## Name generator (`name-generator.ts`) -/

/-- `word.charAt(0).toUpperCase() + word.slice(1).toLowerCase()`. -/
def capitalizeWord (w : String) : String :=
  strToUpper (w.take 1) ++ strToLower (w.drop 1)

/-- `toPascalCase`: split a segment on `-`, capitalize each word, join. -/
def toPascalCase (segment : String) : String :=
  String.join ((strSplitOnChar segment '-').map capitalizeWord)

/-- `method.charAt(0) + method.slice(1).toLowerCase()`: the method-name part
of a generated type name.  Note the first character is kept as is, not
upper-cased. -/
def methodCapitalized (method : String) : String :=
  method.take 1 ++ strToLower (method.drop 1)

/-- First pass of `generateTypeName`: the `for` loop recording in
`lastStaticSegmentIndex` the index of every non-parameter segment (so it ends
at the last one), starting from `-1`.  The loop counter `i` and the running
value are explicit arguments. -/
def lastStaticSegmentIndexAux : List String → Nat → Int → Int
  | [], _, acc => acc
  | seg :: rest, i, acc =>
      lastStaticSegmentIndexAux rest (i + 1)
        (if ¬ strStartsWith seg ":" then (i : Int) else acc)

/-- `lastStaticSegmentIndex` as computed by the first pass of
`generateTypeName`. -/
def lastStaticSegmentIndex (segments : List String) : Int :=
  lastStaticSegmentIndexAux segments 0 (-1)

/-- `hasParamBefore` of `generateTypeName`'s second pass:
`i > 0 && segments[i - 1].startsWith(':')`, with the previous segment passed
as an `Option` (`none` at index 0). -/
def prevIsParam : Option String → Bool
  | some p => strStartsWith p ":"
  | none => false

/-- Second pass of `generateTypeName`: builds `pathParts`, pushing `'$'`
before a literal segment when `pathParts.length > 0` and the previous segment
is a parameter.  `prev` is `segments[i-1]` (none at `i = 0`), `acc` the parts
pushed so far, in reverse. -/
def buildPathPartsAux : List String → Option String → List String → List String
  | [], _, acc => acc.reverse
  | seg :: rest, prev, acc =>
      if strStartsWith seg ":" then
        buildPathPartsAux rest (some seg) acc
      else if decide (acc.length > 0) && prevIsParam prev then
        buildPathPartsAux rest (some seg) (toPascalCase seg :: "$" :: acc)
      else
        buildPathPartsAux rest (some seg) (toPascalCase seg :: acc)

/-- The `pathParts` list built by `generateTypeName`'s second pass. -/
def buildPathParts (segments : List String) : List String :=
  buildPathPartsAux segments none []

/-- `hasParamAfterLastSegment` of `generateTypeName`: the last static segment
exists (`lastStaticSegmentIndex >= 0`) and is followed by a further segment
that is a parameter segment. -/
def hasParamAfterLastSegment (segments : List String) : Bool :=
  lastStaticSegmentIndex segments ≥ 0 &&
    lastStaticSegmentIndex segments < (segments.length : Int) - 1 &&
    strStartsWith (segments.getD (lastStaticSegmentIndex segments + 1).toNat "") ":"

/-- `generateTypeName(route, method, typeSuffix)` of `name-generator.ts`
(its `accumulatedParams` argument is unused in the source body and omitted
here). -/
def generateTypeName (route : Route) (method : String) (typeSuffix : String) : String :=
  let methodName := methodCapitalized method
  let segments := pathSegments route.path
  let pathParts := buildPathParts segments
  let sepBeforeSuffix := if hasParamAfterLastSegment segments then "$" else ""
  methodName ++ String.join pathParts ++ sepBeforeSuffix ++ typeSuffix

/-- `generateParamsTypeName(route, method)`: only static segments, PascalCase,
joined with `$`, suffix `$Params`. -/
def generateParamsTypeName (route : Route) (method : String) : String :=
  let methodName := methodCapitalized method
  let segments := pathSegments route.path
  let pathParts := (segments.filter (fun s => ¬ strStartsWith s ":")).map toPascalCase
  methodName ++ String.intercalate "$" pathParts ++ "$Params"

/-! ### Claim C4: claim-side reformulation of the naming algorithm -/

/-- Claim-side path-parts recursion (amended wording): only literal segments
are kept, in PascalCase; `$` is inserted before a literal segment that is
immediately preceded by a parameter segment, provided a literal part has
already been emitted.  `emitted`: whether a literal part was emitted so far;
`prevParam`: whether the previous segment was a parameter. -/
def specPathParts : List String → Bool → Bool → List String
  | [], _, _ => []
  | s :: rest, emitted, prevParam =>
    if strStartsWith s ":" then specPathParts rest emitted true
    else (if emitted && prevParam then ["$"] else [])
      ++ (toPascalCase s :: specPathParts rest true false)

/-- Claim-side: a parameter segment immediately follows the last literal
segment.  Equivalently: the path contains a literal segment and its final
segment is a parameter. -/
def specSuffixSeparator (segs : List String) : Bool :=
  (segs.any fun s => ¬ strStartsWith s ":") &&
    (match segs.getLast? with
     | some s => strStartsWith s ":"
     | none => false)

/-- The naming rule exactly as claim C4 states it: the first letter of the
method is upper-cased and the rest lower-cased, and `$` is inserted before
every literal segment immediately preceded by a parameter segment
(unconditionally). -/
def claimPathParts : List String → Bool → List String
  | [], _ => []
  | s :: rest, prevParam =>
    if strStartsWith s ":" then claimPathParts rest true
    else (if prevParam then ["$"] else [])
      ++ (toPascalCase s :: claimPathParts rest false)

/-- The type name claim C4, as stated, predicts. -/
def claimTypeName (route : Route) (method : String) (typeSuffix : String) : String :=
  strToUpper (method.take 1) ++ strToLower (method.drop 1)
    ++ String.join (claimPathParts (pathSegments route.path) false)
    ++ (if specSuffixSeparator (pathSegments route.path) then "$" else "")
    ++ typeSuffix

/-- Position (index) of the last literal segment, when one exists. -/
def lastLitPos : List String → Option Nat
  | [] => none
  | s :: rest =>
    match lastLitPos rest with
    | some p => some (p + 1)
    | none => if ¬ strStartsWith s ":" then some 0 else none

theorem lastStaticSegmentIndexAux_eq (segs : List String) :
    ∀ (i : Nat) (acc : Int),
      lastStaticSegmentIndexAux segs i acc =
        match lastLitPos segs with
        | some p => ((i + p : Nat) : Int)
        | none => acc := by
  induction segs with
  | nil => intro i acc; simp [lastStaticSegmentIndexAux, lastLitPos]
  | cons s rest ih =>
    intro i acc
    simp only [lastStaticSegmentIndexAux, lastLitPos]
    rw [ih]
    cases h : lastLitPos rest with
    | some p =>
      simp only []
      congr 1
      omega
    | none =>
      by_cases hs : strStartsWith s ":" = true <;> simp [hs]

theorem lastLitPos_none (segs : List String) :
    lastLitPos segs = none ↔ ∀ t ∈ segs, strStartsWith t ":" = true := by
  induction segs with
  | nil => simp [lastLitPos]
  | cons s rest ih =>
    cases hr : lastLitPos rest with
    | some q =>
      simp only [lastLitPos, hr]
      constructor
      · intro hc; cases hc
      · intro hall
        have : lastLitPos rest = none := ih.mpr fun t ht => hall t (List.mem_cons_of_mem _ ht)
        rw [this] at hr; cases hr
    | none =>
      have hrest : ∀ t ∈ rest, strStartsWith t ":" = true := ih.mp hr
      simp only [lastLitPos, hr]
      by_cases hs : strStartsWith s ":" = true
      · rw [if_neg (by simp [hs])]
        constructor
        · intro _ t ht
          rcases List.mem_cons.mp ht with rfl | ht'
          · exact hs
          · exact hrest t ht'
        · intro _; rfl
      · rw [if_pos (by simp [hs])]
        constructor
        · intro hc; cases hc
        · intro hall; exact absurd (hall s (by simp)) hs

theorem lastLitPos_some (segs : List String) (p : Nat)
    (h : lastLitPos segs = some p) :
    ∃ pre lit post, segs = pre ++ lit :: post ∧ pre.length = p ∧
      strStartsWith lit ":" = false ∧ ∀ t ∈ post, strStartsWith t ":" = true := by
  induction segs generalizing p with
  | nil => simp [lastLitPos] at h
  | cons s rest ih =>
    cases hr : lastLitPos rest with
    | some q =>
      rw [lastLitPos, hr] at h
      simp only [Option.some.injEq] at h
      obtain ⟨pre, lit, post, hseg, hlen, hlit, hpost⟩ := ih q hr
      exact ⟨s :: pre, lit, post, by simp [hseg], by simp [hlen]; omega, hlit, hpost⟩
    | none =>
      rw [lastLitPos, hr] at h
      by_cases hs : strStartsWith s ":" = true
      · rw [if_neg (by simp [hs])] at h; cases h
      · rw [if_pos (by simp [hs])] at h
        injection h with h
        cases h
        exact ⟨[], s, rest, rfl, rfl, by simpa using hs,
          (lastLitPos_none rest).mp hr⟩

theorem getD_append_length_add (pre l' : List String) (k : Nat) (d : String) :
    (pre ++ l').getD (pre.length + k) d = l'.getD k d := by
  induction pre with
  | nil => simp
  | cons a pre ih =>
    have h : (a :: pre).length + k = (pre.length + k) + 1 := by simp; omega
    rw [h]
    simpa [List.getD_cons_succ] using ih

theorem getLast?_all_param (q : String) (l : List String)
    (hall : ∀ t ∈ q :: l, strStartsWith t ":" = true) :
    ∃ s, (q :: l).getLast? = some s ∧ strStartsWith s ":" = true := by
  induction l generalizing q with
  | nil => exact ⟨q, rfl, hall q (by simp)⟩
  | cons b l ih =>
    rw [List.getLast?_cons_cons]
    exact ih b (fun t ht => hall t (List.mem_cons_of_mem _ ht))

theorem lastStaticSegmentIndex_none (segs : List String)
    (h : lastLitPos segs = none) : lastStaticSegmentIndex segs = -1 := by
  rw [lastStaticSegmentIndex, lastStaticSegmentIndexAux_eq, h]

theorem lastStaticSegmentIndex_some (segs : List String) (p : Nat)
    (h : lastLitPos segs = some p) : lastStaticSegmentIndex segs = (p : Int) := by
  rw [lastStaticSegmentIndex, lastStaticSegmentIndexAux_eq, h]
  simp

theorem hasParamAfterLastSegment_eq (segs : List String) :
    hasParamAfterLastSegment segs = specSuffixSeparator segs := by
  cases h : lastLitPos segs with
  | none =>
    have hall := (lastLitPos_none segs).mp h
    have h2 : specSuffixSeparator segs = false := by
      unfold specSuffixSeparator
      have hany : (segs.any fun s => ¬ strStartsWith s ":") = false := by
        rw [List.any_eq_false]
        intro t ht
        simp [hall t ht]
      rw [hany, Bool.false_and]
    rw [h2]
    unfold hasParamAfterLastSegment
    rw [lastStaticSegmentIndex_none segs h]
    have hd : decide ((-1 : Int) ≥ 0) = false := by decide
    rw [hd, Bool.false_and, Bool.false_and]
  | some p =>
    obtain ⟨pre, lit, post, hseg, hlen, hlit, hpost⟩ := lastLitPos_some segs p h
    unfold hasParamAfterLastSegment
    rw [lastStaticSegmentIndex_some segs p h]
    cases post with
    | nil =>
      have h1 : decide ((p : Int) < (segs.length : Int) - 1) = false := by
        apply decide_eq_false
        rw [hseg]
        simp only [List.length_append, List.length_cons, List.length_nil]
        omega
      have h2 : specSuffixSeparator segs = false := by
        rw [hseg]
        simp [specSuffixSeparator, List.getLast?_concat, hlit]
      rw [h2, h1, Bool.and_false, Bool.false_and]
    | cons q post' =>
      have hq : strStartsWith q ":" = true := hpost q (by simp)
      have hge : decide ((p : Int) ≥ 0) = true := by
        apply decide_eq_true
        positivity
      have h1 : decide ((p : Int) < (segs.length : Int) - 1) = true := by
        apply decide_eq_true
        rw [hseg]
        simp only [List.length_append, List.length_cons]
        push_cast
        omega
      have hIdx : ((p : Int) + 1).toNat = pre.length + 1 := by omega
      have hgd : segs.getD (pre.length + 1) "" = q := by
        rw [hseg, getD_append_length_add]
        simp [List.getD_cons_succ]
      have h2 : specSuffixSeparator segs = true := by
        have hany : (segs.any fun s => ¬ strStartsWith s ":") = true := by
          rw [List.any_eq_true]
          exact ⟨lit, by rw [hseg]; simp, by simp [hlit]⟩
        obtain ⟨s, hlast, hps⟩ := getLast?_all_param q post' hpost
        unfold specSuffixSeparator
        rw [hany, hseg, List.getLast?_append, List.getLast?_cons_cons, hlast]
        simp only [Option.or, Bool.true_and]
        exact hps
      rw [h2, hge, h1, hIdx, hgd, hq, Bool.true_and, Bool.true_and]

theorem buildPathPartsAux_eq (segs : List String) :
    ∀ (prev : Option String) (acc : List String),
      buildPathPartsAux segs prev acc =
        acc.reverse ++ specPathParts segs (decide (acc.length > 0)) (prevIsParam prev) := by
  induction segs with
  | nil => intro prev acc; simp [buildPathPartsAux, specPathParts]
  | cons s rest ih =>
    intro prev acc
    simp only [buildPathPartsAux, specPathParts]
    by_cases hs : strStartsWith s ":" = true
    · rw [if_pos hs, if_pos hs, ih]
      simp [prevIsParam, hs]
    · rw [if_neg hs, if_neg hs]
      by_cases hb : (decide (acc.length > 0) && prevIsParam prev) = true
      · rw [if_pos hb, if_pos hb, ih]
        have hp : prevIsParam (some s) = false := by simp [prevIsParam, hs]
        simp [hp]
      · rw [if_neg hb, if_neg hb, ih]
        have hp : prevIsParam (some s) = false := by simp [prevIsParam, hs]
        simp [hp]

theorem buildPathParts_eq (segs : List String) :
    buildPathParts segs = specPathParts segs false false := by
  rw [buildPathParts, buildPathPartsAux_eq]
  rfl

/-- **Claim C4, counterexample.**  The claim predicts the name
`claimTypeName`: first letter of the method upper-cased, `$` before every
literal segment immediately preceded by a parameter segment.  For the route
`/:id/b` with method `get`, the code produces `getBResponseBody` (first
character kept as is; no `$` because no literal part had been emitted yet),
while the claim predicts `Get$BResponseBody`. -/
theorem c4_counterexample :
    generateTypeName { path := "/:id/b" } "get" "ResponseBody" = "getBResponseBody" ∧
    claimTypeName { path := "/:id/b" } "get" "ResponseBody" = "Get$BResponseBody" ∧
    generateTypeName { path := "/:id/b" } "get" "ResponseBody" ≠
      claimTypeName { path := "/:id/b" } "get" "ResponseBody" := by
  refine ⟨by decide, by decide, by decide⟩

/-- **Claim C4 (amended).**  `generateTypeName` is deterministic and, for
every method string and route path, keeps the first character of the method
unchanged and lower-cases the rest (`GET` → `Get`), keeps only the literal
path segments converted to PascalCase, inserts the `$` separator before a
literal segment immediately preceded by a parameter segment provided a
literal part has already been emitted, and inserts `$` before the type suffix
when a parameter segment follows the last literal segment; the two distinct
GET routes `/a/:id/b` and `/a/b` produce different names. -/
theorem c4_generateTypeName_amended :
    (∀ (route : Route) (method typeSuffix : String),
       generateTypeName route method typeSuffix =
         method.take 1 ++ strToLower (method.drop 1)
           ++ String.join (specPathParts (pathSegments route.path) false false)
           ++ (if specSuffixSeparator (pathSegments route.path) then "$" else "")
           ++ typeSuffix)
    ∧ generateTypeName { path := "/a/:id/b" } "GET" "ResponseBody" ≠
        generateTypeName { path := "/a/b" } "GET" "ResponseBody" := by
  constructor
  · intro route method typeSuffix
    simp only [generateTypeName, methodCapitalized, buildPathParts_eq,
      hasParamAfterLastSegment_eq]
  · decide

/-! ## Route tree builder (`code-generator.ts`, tree-builder section)

`TreeNode` has three insertion-ordered maps: `static` (literal segment →
child), `params` (parameter name, leading colon stripped → child), `methods`
(HTTP verb → route). -/

inductive TreeNode where
  | mk (static : List (String × TreeNode)) (params : List (String × TreeNode))
       (methods : List (String × ProcessedRoute)) : TreeNode

/-- The fresh node `{static: new Map(), params: new Map(), methods: new Map()}`. -/
def emptyTreeNode : TreeNode := .mk [] [] []

/-- `route.settings?.[method]?.disabled` truthiness (the guard of the leaf
registration in `insertRoute`). -/
def methodDisabled (route : ProcessedRoute) (method : String) : Bool :=
  jsTruthy (jsGetFieldOpt (jsGetFieldOpt route.settings method) "disabled")

/-- `insertRoute(node, segments, segmentIndex, route)` of `buildCompleteTree`,
with the remaining segments as the recursion argument.  At the leaf every
non-disabled method is registered; a parameter segment descends into `params`
under the name with the colon stripped, a literal segment into `static`. -/
def insertRoute (node : TreeNode) (segments : List String)
    (route : ProcessedRoute) : TreeNode :=
  match segments, node with
  | [], .mk st pm ms =>
      .mk st pm (route.methods.foldl
        (fun acc m => if ¬ methodDisabled route m then mapSet acc m route else acc) ms)
  | seg :: rest, .mk st pm ms =>
      if strStartsWith seg ":" then
        .mk st (mapSet pm (seg.drop 1)
          (insertRoute ((mapGet pm (seg.drop 1)).getD emptyTreeNode) rest route)) ms
      else
        .mk (mapSet st seg
          (insertRoute ((mapGet st seg).getD emptyTreeNode) rest route)) pm ms

/-- `buildCompleteTree(routes)`: inserts every route at its path segments,
starting from the empty root. -/
def buildCompleteTree (routes : List ProcessedRoute) : TreeNode :=
  routes.foldl (fun t r => insertRoute t (pathSegments r.path) r) emptyTreeNode

/-- All leaf `(path, method)` pairs of a tree: each entry of a node's
`methods` map paired with the path of segments leading to that node (a
`params` edge contributes its segment with the leading colon restored). -/
def TreeNode.leaves : TreeNode → List (List String × String)
  | .mk st pm ms =>
      ms.map (fun e => (([] : List String), e.1))
      ++ (st.attach.map (fun e =>
            (TreeNode.leaves e.1.2).map (fun x => (e.1.1 :: x.1, x.2)))).flatten
      ++ (pm.attach.map (fun e =>
            (TreeNode.leaves e.1.2).map (fun x => ((":" ++ e.1.1) :: x.1, x.2)))).flatten
decreasing_by
  all_goals
    obtain ⟨⟨k, child⟩, hmem⟩ := e
    have h1 := List.sizeOf_lt_of_mem hmem
    simp only [Prod.mk.sizeOf_spec] at h1
    simp only [TreeNode.mk.sizeOf_spec]
    omega

/-- `TreeNode.leaves` with the `attach` bookkeeping removed. -/
theorem leaves_eq (st pm : List (String × TreeNode))
    (ms : List (String × ProcessedRoute)) :
    (TreeNode.mk st pm ms).leaves =
      ms.map (fun e => (([] : List String), e.1))
      ++ (st.map (fun e =>
            (TreeNode.leaves e.2).map (fun x => (e.1 :: x.1, x.2)))).flatten
      ++ (pm.map (fun e =>
            (TreeNode.leaves e.2).map (fun x => ((":" ++ e.1) :: x.1, x.2)))).flatten := by
  rw [TreeNode.leaves]
  rw [List.attach_map_val st (fun e => (TreeNode.leaves e.2).map (fun x => (e.1 :: x.1, x.2)))]
  rw [List.attach_map_val pm (fun e => (TreeNode.leaves e.2).map (fun x => ((":" ++ e.1) :: x.1, x.2)))]

/-! ### Association-list map lemmas -/

theorem mapGet_mapSet_self (l : List (String × α)) (k : String) (v : α) :
    mapGet (mapSet l k v) k = some v := by
  induction l with
  | nil => simp [mapGet, mapSet]
  | cons e rest ih =>
    obtain ⟨k', v'⟩ := e
    by_cases h : k' = k
    · simp [mapGet, mapSet, h]
    · simp [mapGet, mapSet, h, ih]

theorem mapGet_mapSet_ne (l : List (String × α)) (k k' : String) (v : α)
    (h : k' ≠ k) : mapGet (mapSet l k v) k' = mapGet l k' := by
  induction l with
  | nil => simp [mapGet, mapSet, Ne.symm h]
  | cons e rest ih =>
    obtain ⟨k₀, v₀⟩ := e
    by_cases h0 : k₀ = k
    · subst h0
      simp [mapGet, mapSet, Ne.symm h]
    · simp only [mapSet, h0, if_false, mapGet]
      by_cases h1 : k₀ = k'
      · simp [h1]
      · simp [h1, ih]

theorem mapKeys_cons (e : String × α) (l : List (String × α)) :
    mapKeys (e :: l) = e.1 :: mapKeys l := rfl

theorem mapKeys_mapSet (l : List (String × α)) (k : String) (v : α) :
    mapKeys (mapSet l k v) =
      if k ∈ mapKeys l then mapKeys l else mapKeys l ++ [k] := by
  induction l with
  | nil => simp [mapKeys, mapSet]
  | cons e rest ih =>
    obtain ⟨k₀, v₀⟩ := e
    by_cases h0 : k₀ = k
    · subst h0
      simp [mapKeys, mapSet]
    · have step : mapSet ((k₀, v₀) :: rest) k v = (k₀, v₀) :: mapSet rest k v := by
        simp [mapSet, h0]
      rw [step, mapKeys_cons, mapKeys_cons, ih]
      by_cases hmem : k ∈ mapKeys rest
      · rw [if_pos hmem, if_pos (List.mem_cons_of_mem _ hmem)]
      · rw [if_neg hmem, if_neg ?_]
        · simp
        · simp only [List.mem_cons]
          rintro (rfl | hc)
          · exact h0 rfl
          · exact hmem hc

theorem nodup_mapKeys_mapSet (l : List (String × α)) (k : String) (v : α)
    (h : (mapKeys l).Nodup) : (mapKeys (mapSet l k v)).Nodup := by
  rw [mapKeys_mapSet]
  by_cases hmem : k ∈ mapKeys l
  · simp [hmem, h]
  · rw [if_neg hmem, List.nodup_append]
    refine ⟨h, List.nodup_singleton k, ?_⟩
    rw [List.disjoint_left]
    intro a ha hak
    rw [List.mem_singleton] at hak
    exact hmem (hak ▸ ha)

theorem mem_mapSet_elim (l : List (String × α)) (k k' : String) (v v' : α)
    (h : (k', v') ∈ mapSet l k v) : (k' = k ∧ v' = v) ∨ (k', v') ∈ l := by
  induction l with
  | nil =>
    simp only [mapSet, List.mem_cons, List.not_mem_nil, or_false] at h
    injection h with h1 h2
    exact Or.inl ⟨h1, h2⟩
  | cons e rest ih =>
    obtain ⟨k₀, v₀⟩ := e
    by_cases h0 : k₀ = k
    · subst h0
      have step : mapSet ((k₀, v₀) :: rest) k₀ v = (k₀, v) :: rest := by
        simp [mapSet]
      rw [step] at h
      rcases List.mem_cons.mp h with heq | hmem
      · injection heq with h1 h2
        exact Or.inl ⟨h1, h2⟩
      · exact Or.inr (List.mem_cons_of_mem _ hmem)
    · have step : mapSet ((k₀, v₀) :: rest) k v = (k₀, v₀) :: mapSet rest k v := by
        simp [mapSet, h0]
      rw [step] at h
      rcases List.mem_cons.mp h with heq | hmem
      · exact Or.inr (List.mem_cons.mpr (Or.inl heq))
      · rcases ih hmem with h' | h'
        · exact Or.inl h'
        · exact Or.inr (List.mem_cons_of_mem _ h')

theorem mem_mapSet_iff (l : List (String × α)) (k k' : String) (v v' : α)
    (hnd : (mapKeys l).Nodup) :
    (k', v') ∈ mapSet l k v ↔
      (k' = k ∧ v' = v) ∨ (k' ≠ k ∧ (k', v') ∈ l) := by
  induction l with
  | nil =>
    have step : mapSet ([] : List (String × α)) k v = [(k, v)] := rfl
    rw [step]
    constructor
    · intro h
      rcases List.mem_cons.mp h with heq | hmem
      · injection heq with h1 h2
        exact Or.inl ⟨h1, h2⟩
      · cases hmem
    · rintro (⟨rfl, rfl⟩ | ⟨_, hc⟩)
      · exact List.mem_cons_self _ _
      · cases hc
  | cons e rest ih =>
    obtain ⟨k₀, v₀⟩ := e
    have hnd' : (mapKeys rest).Nodup := by
      rw [mapKeys_cons] at hnd
      exact hnd.of_cons
    have hk₀ : k₀ ∉ mapKeys rest := by
      rw [mapKeys_cons, List.nodup_cons] at hnd
      exact hnd.1
    by_cases h0 : k₀ = k
    · subst h0
      have step : mapSet ((k₀, v₀) :: rest) k₀ v = (k₀, v) :: rest := by
        simp [mapSet]
      rw [step]
      constructor
      · intro h
        rcases List.mem_cons.mp h with heq | hmem
        · injection heq with h1 h2
          exact Or.inl ⟨h1, h2⟩
        · have hne : k' ≠ k₀ := by
            rintro rfl
            exact hk₀ (List.mem_map.mpr ⟨(k', v'), hmem, rfl⟩)
          exact Or.inr ⟨hne, List.mem_cons_of_mem _ hmem⟩
      · rintro (⟨rfl, rfl⟩ | ⟨hne, hmem⟩)
        · exact List.mem_cons_self _ _
        · rcases List.mem_cons.mp hmem with heq | hmem'
          · injection heq with h1 h2
            exact absurd h1 hne
          · exact List.mem_cons_of_mem _ hmem'
    · have step : mapSet ((k₀, v₀) :: rest) k v = (k₀, v₀) :: mapSet rest k v := by
        simp [mapSet, h0]
      rw [step]
      constructor
      · intro h
        rcases List.mem_cons.mp h with heq | hmem
        · injection heq with h1 h2
          subst h1; subst h2
          exact Or.inr ⟨h0, List.mem_cons_self _ _⟩
        · rcases (ih hnd').mp hmem with h' | ⟨hne, hmem'⟩
          · exact Or.inl h'
          · exact Or.inr ⟨hne, List.mem_cons_of_mem _ hmem'⟩
      · rintro (⟨rfl, rfl⟩ | ⟨hne, hmem⟩)
        · exact List.mem_cons_of_mem _ ((ih hnd').mpr (Or.inl ⟨rfl, rfl⟩))
        · rcases List.mem_cons.mp hmem with heq | hmem'
          · exact List.mem_cons.mpr (Or.inl heq)
          · exact List.mem_cons_of_mem _ ((ih hnd').mpr (Or.inr ⟨hne, hmem'⟩))

theorem mapGet_eq_some_of_mem (l : List (String × α)) (k : String) (v : α)
    (hnd : (mapKeys l).Nodup) (h : (k, v) ∈ l) : mapGet l k = some v := by
  induction l with
  | nil => cases h
  | cons e rest ih =>
    obtain ⟨k₀, v₀⟩ := e
    have hk₀ : k₀ ∉ mapKeys rest := by
      rw [mapKeys_cons, List.nodup_cons] at hnd
      exact hnd.1
    have hnd' : (mapKeys rest).Nodup := by
      rw [mapKeys_cons] at hnd
      exact hnd.of_cons
    rcases List.mem_cons.mp h with heq | hmem
    · injection heq with h1 h2
      simp [mapGet, ← h1, ← h2]
    · have hne : k₀ ≠ k := by
        rintro rfl
        exact hk₀ (List.mem_map.mpr ⟨(k₀, v), hmem, rfl⟩)
      simp [mapGet, hne, ih hnd' hmem]

theorem mem_of_mapGet_eq_some (l : List (String × α)) (k : String) (v : α)
    (h : mapGet l k = some v) : (k, v) ∈ l := by
  induction l with
  | nil => simp [mapGet] at h
  | cons e rest ih =>
    obtain ⟨k₀, v₀⟩ := e
    by_cases h0 : k₀ = k
    · subst h0
      have step : mapGet ((k₀, v₀) :: rest) k₀ = some v₀ := by simp [mapGet]
      rw [step] at h
      injection h with h
      exact List.mem_cons.mpr (Or.inl (by rw [h]))
    · simp only [mapGet, h0, if_false] at h
      exact List.mem_cons_of_mem _ (ih h)

/-! ### Tree well-formedness: every map has distinct keys, `static` keys never
start with a colon (they come from literal segments), recursively. -/

inductive TreeWF : TreeNode → Prop where
  | mk : ∀ {st pm : List (String × TreeNode)} {ms : List (String × ProcessedRoute)},
      (mapKeys st).Nodup →
      (mapKeys pm).Nodup →
      (mapKeys ms).Nodup →
      (∀ e ∈ st, strStartsWith e.1 ":" = false) →
      (∀ e ∈ st, TreeWF e.2) →
      (∀ e ∈ pm, TreeWF e.2) →
      TreeWF (.mk st pm ms)

theorem treeWF_empty : TreeWF emptyTreeNode := by
  refine TreeWF.mk ?_ ?_ ?_ ?_ ?_ ?_ <;> simp [mapKeys]

/-! ### Leaf membership characterization -/

theorem mem_leaves (st pm : List (String × TreeNode))
    (ms : List (String × ProcessedRoute)) (p : List String) (m : String) :
    (p, m) ∈ (TreeNode.mk st pm ms).leaves ↔
      (p = [] ∧ m ∈ mapKeys ms) ∨
      (∃ e ∈ st, ∃ tail, p = e.1 :: tail ∧ (tail, m) ∈ TreeNode.leaves e.2) ∨
      (∃ e ∈ pm, ∃ tail, p = (":" ++ e.1) :: tail ∧ (tail, m) ∈ TreeNode.leaves e.2) := by
  rw [leaves_eq]
  simp only [List.mem_append, List.mem_flatten, List.mem_map]
  constructor
  · rintro ((⟨e, he, heq⟩ | ⟨L, ⟨e, he, rfl⟩, hpL⟩) | ⟨L, ⟨e, he, rfl⟩, hpL⟩)
    · injection heq with h1 h2
      exact Or.inl ⟨h1.symm, List.mem_map.mpr ⟨e, he, h2⟩⟩
    · obtain ⟨x, hx, heq⟩ := List.mem_map.mp hpL
      injection heq with h1 h2
      refine Or.inr (Or.inl ⟨e, he, x.1, h1.symm, ?_⟩)
      rw [← h2]
      exact hx
    · obtain ⟨x, hx, heq⟩ := List.mem_map.mp hpL
      injection heq with h1 h2
      refine Or.inr (Or.inr ⟨e, he, x.1, h1.symm, ?_⟩)
      rw [← h2]
      exact hx
  · rintro (⟨rfl, hm⟩ | ⟨e, he, tail, rfl, ht⟩ | ⟨e, he, tail, rfl, ht⟩)
    · obtain ⟨x, hx, hfst⟩ := List.mem_map.mp hm
      exact Or.inl (Or.inl ⟨x, hx, by rw [hfst]⟩)
    · refine Or.inl (Or.inr ⟨(TreeNode.leaves e.2).map
        (fun x => (e.1 :: x.1, x.2)), ⟨e, he, rfl⟩, ?_⟩)
      exact List.mem_map.mpr ⟨(tail, m), ht, rfl⟩
    · refine Or.inr ⟨(TreeNode.leaves e.2).map
        (fun x => ((":" ++ e.1) :: x.1, x.2)), ⟨e, he, rfl⟩, ?_⟩
      exact List.mem_map.mpr ⟨(tail, m), ht, rfl⟩

/-- A parameter segment is reconstructed exactly by restoring the stripped
colon: `':' ++ seg.slice(1) = seg`. -/
theorem colon_append_drop (seg : String) (h : strStartsWith seg ":" = true) :
    ":" ++ seg.drop 1 = seg := by
  rcases seg with ⟨l⟩
  rw [strStartsWith] at h
  match l, h with
  | c :: rest, h =>
    have hc : c = ':' := by
      simp [List.isPrefixOf] at h
      exact h.symm
    apply String.ext
    rw [String.data_append, String.data_drop]
    simp [hc]

/-- Leaf-registration fold of `insertRoute`: membership in the keys of the
resulting methods map. -/
theorem mem_mapKeys_methodsFold (route : ProcessedRoute) (methods : List String) :
    ∀ (ms : List (String × ProcessedRoute)) (m : String),
      m ∈ mapKeys (methods.foldl
        (fun acc mm => if ¬ methodDisabled route mm then mapSet acc mm route else acc) ms) ↔
      m ∈ mapKeys ms ∨ (m ∈ methods ∧ methodDisabled route m = false) := by
  induction methods with
  | nil => intro ms m; simp
  | cons m0 rest ih =>
    intro ms m
    rw [List.foldl_cons, ih]
    by_cases hdis : methodDisabled route m0 = false
    · rw [if_pos (by simp [hdis])]
      rw [mapKeys_mapSet]
      by_cases hmem : m0 ∈ mapKeys ms
      · rw [if_pos hmem]
        constructor
        · rintro (h | h)
          · exact Or.inl h
          · exact Or.inr ⟨List.mem_cons_of_mem _ h.1, h.2⟩
        · rintro (h | ⟨hm, hd⟩)
          · exact Or.inl h
          · rcases List.mem_cons.mp hm with rfl | hm'
            · exact Or.inl hmem
            · exact Or.inr ⟨hm', hd⟩
      · rw [if_neg hmem]
        simp only [List.mem_append, List.mem_singleton]
        constructor
        · rintro ((h | rfl) | h)
          · exact Or.inl h
          · exact Or.inr ⟨List.mem_cons_self _ _, hdis⟩
          · exact Or.inr ⟨List.mem_cons_of_mem _ h.1, h.2⟩
        · rintro (h | ⟨hm, hd⟩)
          · exact Or.inl (Or.inl h)
          · rcases List.mem_cons.mp hm with rfl | hm'
            · exact Or.inl (Or.inr rfl)
            · exact Or.inr ⟨hm', hd⟩
    · rw [if_neg (by simpa using hdis)]
      constructor
      · rintro (h | h)
        · exact Or.inl h
        · exact Or.inr ⟨List.mem_cons_of_mem _ h.1, h.2⟩
      · rintro (h | ⟨hm, hd⟩)
        · exact Or.inl h
        · rcases List.mem_cons.mp hm with rfl | hm'
          · exact absurd hd hdis
          · exact Or.inr ⟨hm', hd⟩

/-- The leaf-registration fold keeps the method keys duplicate-free. -/
theorem nodup_mapKeys_methodsFold (route : ProcessedRoute) (methods : List String) :
    ∀ (ms : List (String × ProcessedRoute)), (mapKeys ms).Nodup →
      (mapKeys (methods.foldl
        (fun acc mm => if ¬ methodDisabled route mm then mapSet acc mm route else acc) ms)).Nodup := by
  induction methods with
  | nil => intro ms h; simpa using h
  | cons m0 rest ih =>
    intro ms h
    rw [List.foldl_cons]
    by_cases hdis : methodDisabled route m0 = false
    · rw [if_pos (by simp [hdis])]
      exact ih _ (nodup_mapKeys_mapSet _ _ _ h)
    · rw [if_neg (by simpa using hdis)]
      exact ih _ h

theorem leaves_empty : TreeNode.leaves emptyTreeNode = [] := by
  rw [emptyTreeNode, leaves_eq]
  simp

theorem treeWF_child_params {st pm : List (String × TreeNode)}
    {ms : List (String × ProcessedRoute)} (hwf : TreeWF (.mk st pm ms))
    (key : String) : TreeWF ((mapGet pm key).getD emptyTreeNode) := by
  cases hwf with
  | mk h1 h2 h3 h4 h5 h6 =>
    cases hget : mapGet pm key with
    | none => exact treeWF_empty
    | some c => exact h6 (key, c) (mem_of_mapGet_eq_some _ _ _ hget)

theorem treeWF_child_static {st pm : List (String × TreeNode)}
    {ms : List (String × ProcessedRoute)} (hwf : TreeWF (.mk st pm ms))
    (key : String) : TreeWF ((mapGet st key).getD emptyTreeNode) := by
  cases hwf with
  | mk h1 h2 h3 h4 h5 h6 =>
    cases hget : mapGet st key with
    | none => exact treeWF_empty
    | some c => exact h5 (key, c) (mem_of_mapGet_eq_some _ _ _ hget)

/-- `insertRoute` preserves tree well-formedness. -/
theorem treeWF_insertRoute (segments : List String) :
    ∀ (node : TreeNode) (route : ProcessedRoute), TreeWF node →
      TreeWF (insertRoute node segments route) := by
  induction segments with
  | nil =>
    intro node route hwf
    obtain ⟨st, pm, ms⟩ := node
    cases hwf with
    | mk h1 h2 h3 h4 h5 h6 =>
      rw [insertRoute]
      exact TreeWF.mk h1 h2 (nodup_mapKeys_methodsFold route route.methods ms h3) h4 h5 h6
  | cons seg rest ih =>
    intro node route hwf
    obtain ⟨st, pm, ms⟩ := node
    have hchildp := treeWF_child_params hwf (seg.drop 1)
    have hchilds := treeWF_child_static hwf seg
    cases hwf with
    | mk h1 h2 h3 h4 h5 h6 =>
      rw [insertRoute]
      by_cases hseg : strStartsWith seg ":" = true
      · rw [if_pos hseg]
        refine TreeWF.mk h1 (nodup_mapKeys_mapSet _ _ _ h2) h3 h4 h5 ?_
        intro e he
        rcases mem_mapSet_elim _ _ _ _ _ he with ⟨hk, hv⟩ | hmem
        · rw [hv]
          exact ih _ route hchildp
        · exact h6 e hmem
      · rw [if_neg hseg]
        refine TreeWF.mk (nodup_mapKeys_mapSet _ _ _ h1) h2 h3 ?_ ?_ h6
        · intro e he
          rcases mem_mapSet_elim _ _ _ _ _ he with ⟨hk, hv⟩ | hmem
          · rw [hk]
            simpa using hseg
          · exact h4 e hmem
        · intro e he
          rcases mem_mapSet_elim _ _ _ _ _ he with ⟨hk, hv⟩ | hmem
          · rw [hv]
            exact ih _ route hchilds
          · exact h5 e hmem

/-- Leaf membership after one `insertRoute`: exactly the old leaves plus the
`(segments, method)` pairs of the inserted route's non-disabled methods. -/
theorem mem_leaves_insertRoute (segments : List String) :
    ∀ (node : TreeNode) (route : ProcessedRoute) (p : List String) (m : String),
      TreeWF node →
      ((p, m) ∈ (insertRoute node segments route).leaves ↔
        (p, m) ∈ node.leaves ∨
          (p = segments ∧ m ∈ route.methods ∧ methodDisabled route m = false)) := by
  induction segments with
  | nil =>
    intro node route p m _
    obtain ⟨st, pm, ms⟩ := node
    rw [insertRoute, mem_leaves, mem_leaves, mem_mapKeys_methodsFold]
    constructor
    · rintro (⟨rfl, hA | hN⟩ | h | h)
      · exact Or.inl (Or.inl ⟨rfl, hA⟩)
      · exact Or.inr ⟨rfl, hN.1, hN.2⟩
      · exact Or.inl (Or.inr (Or.inl h))
      · exact Or.inl (Or.inr (Or.inr h))
    · rintro ((⟨rfl, hA⟩ | h | h) | ⟨rfl, hm, hd⟩)
      · exact Or.inl ⟨rfl, Or.inl hA⟩
      · exact Or.inr (Or.inl h)
      · exact Or.inr (Or.inr h)
      · exact Or.inl ⟨rfl, Or.inr ⟨hm, hd⟩⟩
  | cons seg rest ih =>
    intro node route p m hwf
    obtain ⟨st, pm, ms⟩ := node
    have hchildp := treeWF_child_params hwf (seg.drop 1)
    have hchilds := treeWF_child_static hwf seg
    cases hwf with
    | mk h1 h2 h3 h4 h5 h6 =>
      rw [insertRoute]
      by_cases hseg : strStartsWith seg ":" = true
      · rw [if_pos hseg]
        rw [mem_leaves, mem_leaves]
        have hcolon := colon_append_drop seg hseg
        constructor
        · rintro (h | h | ⟨e, he, tail, hp, ht⟩)
          · exact Or.inl (Or.inl h)
          · exact Or.inl (Or.inr (Or.inl h))
          · rcases (mem_mapSet_iff pm (seg.drop 1) e.1 _ e.2 h2).mp he with
              ⟨hk, hv⟩ | ⟨hne, hmem⟩
            · rw [hv] at ht
              rcases (ih _ route tail m hchildp).mp ht with hold | ⟨htail, hm, hd⟩
              · cases hget : mapGet pm (seg.drop 1) with
                | none =>
                  rw [hget] at hold
                  rw [show (none : Option TreeNode).getD emptyTreeNode =
                    emptyTreeNode from rfl, leaves_empty] at hold
                  cases hold
                | some c =>
                  rw [hget] at hold
                  refine Or.inl (Or.inr (Or.inr ⟨(seg.drop 1, c),
                    mem_of_mapGet_eq_some _ _ _ hget, tail, ?_, hold⟩))
                  rw [hp, hk]
              · refine Or.inr ⟨?_, hm, hd⟩
                rw [hp, hk, hcolon, htail]
            · exact Or.inl (Or.inr (Or.inr ⟨e, hmem, tail, hp, ht⟩))
        · rintro ((h | h | ⟨e, he, tail, hp, ht⟩) | ⟨hp, hm, hd⟩)
          · exact Or.inl h
          · exact Or.inr (Or.inl h)
          · by_cases hk : e.1 = seg.drop 1
            · have hget : mapGet pm (seg.drop 1) = some e.2 := by
                rw [← hk]
                exact mapGet_eq_some_of_mem pm e.1 e.2 h2 he
              refine Or.inr (Or.inr ⟨(seg.drop 1,
                insertRoute ((mapGet pm (seg.drop 1)).getD emptyTreeNode) rest route),
                (mem_mapSet_iff pm (seg.drop 1) _ _ _ h2).mpr (Or.inl ⟨rfl, rfl⟩),
                tail, by rw [hp, hk], ?_⟩)
              refine (ih _ route tail m hchildp).mpr (Or.inl ?_)
              rw [hget]
              exact ht
            · refine Or.inr (Or.inr ⟨e,
                (mem_mapSet_iff pm (seg.drop 1) e.1 _ e.2 h2).mpr
                  (Or.inr ⟨hk, he⟩), tail, hp, ht⟩)
          · refine Or.inr (Or.inr ⟨(seg.drop 1,
              insertRoute ((mapGet pm (seg.drop 1)).getD emptyTreeNode) rest route),
              (mem_mapSet_iff pm (seg.drop 1) _ _ _ h2).mpr (Or.inl ⟨rfl, rfl⟩),
              rest, by rw [hp, hcolon], ?_⟩)
            exact (ih _ route rest m hchildp).mpr (Or.inr ⟨rfl, hm, hd⟩)
      · rw [if_neg hseg]
        rw [mem_leaves, mem_leaves]
        constructor
        · rintro (h | ⟨e, he, tail, hp, ht⟩ | h)
          · exact Or.inl (Or.inl h)
          · rcases (mem_mapSet_iff st seg e.1 _ e.2 h1).mp he with
              ⟨hk, hv⟩ | ⟨hne, hmem⟩
            · rw [hv] at ht
              rcases (ih _ route tail m hchilds).mp ht with hold | ⟨htail, hm, hd⟩
              · cases hget : mapGet st seg with
                | none =>
                  rw [hget] at hold
                  rw [show (none : Option TreeNode).getD emptyTreeNode =
                    emptyTreeNode from rfl, leaves_empty] at hold
                  cases hold
                | some c =>
                  rw [hget] at hold
                  refine Or.inl (Or.inr (Or.inl ⟨(seg, c),
                    mem_of_mapGet_eq_some _ _ _ hget, tail, ?_, hold⟩))
                  rw [hp, hk]
              · refine Or.inr ⟨?_, hm, hd⟩
                rw [hp, hk, htail]
            · exact Or.inl (Or.inr (Or.inl ⟨e, hmem, tail, hp, ht⟩))
          · exact Or.inl (Or.inr (Or.inr h))
        · rintro ((h | ⟨e, he, tail, hp, ht⟩ | h) | ⟨hp, hm, hd⟩)
          · exact Or.inl h
          · by_cases hk : e.1 = seg
            · have hget : mapGet st seg = some e.2 := by
                rw [← hk]
                exact mapGet_eq_some_of_mem st e.1 e.2 h1 he
              refine Or.inr (Or.inl ⟨(seg,
                insertRoute ((mapGet st seg).getD emptyTreeNode) rest route),
                (mem_mapSet_iff st seg _ _ _ h1).mpr (Or.inl ⟨rfl, rfl⟩),
                tail, by rw [hp, hk], ?_⟩)
              refine (ih _ route tail m hchilds).mpr (Or.inl ?_)
              rw [hget]
              exact ht
            · refine Or.inr (Or.inl ⟨e,
                (mem_mapSet_iff st seg e.1 _ e.2 h1).mpr
                  (Or.inr ⟨hk, he⟩), tail, hp, ht⟩)
          · exact Or.inr (Or.inr h)
          · refine Or.inr (Or.inl ⟨(seg,
              insertRoute ((mapGet st seg).getD emptyTreeNode) rest route),
              (mem_mapSet_iff st seg _ _ _ h1).mpr (Or.inl ⟨rfl, rfl⟩),
              rest, by rw [hp], ?_⟩)
            exact (ih _ route rest m hchilds).mpr (Or.inr ⟨rfl, hm, hd⟩)

theorem treeWF_foldl (routes : List ProcessedRoute) :
    ∀ node, TreeWF node →
      TreeWF (routes.foldl (fun t r => insertRoute t (pathSegments r.path) r) node) := by
  induction routes with
  | nil => intro node h; simpa using h
  | cons r rest ih =>
    intro node h
    rw [List.foldl_cons]
    exact ih _ (treeWF_insertRoute _ _ _ h)

theorem treeWF_buildCompleteTree (routes : List ProcessedRoute) :
    TreeWF (buildCompleteTree routes) :=
  treeWF_foldl routes emptyTreeNode treeWF_empty

theorem mem_leaves_foldl (routes : List ProcessedRoute) :
    ∀ (node : TreeNode) (p : List String) (m : String), TreeWF node →
      ((p, m) ∈ (routes.foldl
          (fun t r => insertRoute t (pathSegments r.path) r) node).leaves ↔
        (p, m) ∈ node.leaves ∨
          ∃ r ∈ routes, pathSegments r.path = p ∧ m ∈ r.methods ∧
            methodDisabled r m = false) := by
  induction routes with
  | nil => intro node p m _; simp
  | cons r rest ih =>
    intro node p m h
    rw [List.foldl_cons, ih _ p m (treeWF_insertRoute _ _ _ h),
      mem_leaves_insertRoute _ _ _ p m h]
    constructor
    · rintro ((hold | ⟨hp, hm, hd⟩) | ⟨r', hr', hrest⟩)
      · exact Or.inl hold
      · exact Or.inr ⟨r, List.mem_cons_self _ _, hp.symm, hm, hd⟩
      · exact Or.inr ⟨r', List.mem_cons_of_mem _ hr', hrest⟩
    · rintro (hold | ⟨r', hr', hp, hm, hd⟩)
      · exact Or.inl (Or.inl hold)
      · rcases List.mem_cons.mp hr' with rfl | hr''
        · exact Or.inl (Or.inr ⟨hp.symm, hm, hd⟩)
        · exact Or.inr ⟨r', hr'', hp, hm, hd⟩

theorem strStartsWith_colon_append (s : String) :
    strStartsWith (":" ++ s) ":" = true := by
  rw [strStartsWith, String.data_append]
  simp [List.isPrefixOf]

theorem colon_append_inj {a b : String} (h : ":" ++ a = ":" ++ b) : a = b := by
  have := congrArg String.data h
  rw [String.data_append, String.data_append] at this
  exact String.ext (List.append_cancel_left this)

/-- Under well-formedness the leaf enumeration has no duplicates. -/
theorem nodup_leaves (node : TreeNode) (hwf : TreeWF node) :
    node.leaves.Nodup := by
  induction hwf with
  | @mk st pm ms h1 h2 h3 h4 h5 h6 ih5 ih6 =>
    rw [leaves_eq]
    have hA : (ms.map (fun e => (([] : List String), e.1))).Nodup := by
      have hmm : ms.map (fun e => (([] : List String), e.1)) =
          (ms.map Prod.fst).map (fun m => (([] : List String), m)) := by
        rw [List.map_map]
        rfl
      rw [hmm]
      refine List.Nodup.map ?_ h3
      intro a b hab
      injection hab
    have hB : ((st.map (fun e =>
        (TreeNode.leaves e.2).map (fun x => (e.1 :: x.1, x.2)))).flatten).Nodup := by
      rw [List.nodup_flatten]
      constructor
      · rintro l hl
        obtain ⟨e, he, rfl⟩ := List.mem_map.mp hl
        refine List.Nodup.map ?_ (ih5 e he)
        intro a b hab
        injection hab with hab1 hab2
        injection hab1 with _ hab1
        exact Prod.ext hab1 hab2
      · rw [List.pairwise_map]
        have hp1 : List.Pairwise (fun a b : String × TreeNode => a.1 ≠ b.1) st := by
          have h := h1
          rw [mapKeys] at h
          exact (List.pairwise_map).mp h
        refine hp1.imp ?_
        intro a b hne x hx hx'
        obtain ⟨u, _, rfl⟩ := List.mem_map.mp hx
        obtain ⟨w, _, heq⟩ := List.mem_map.mp hx'
        injection heq with heq1 _
        injection heq1 with heq1 _
        exact hne heq1.symm
    have hC : ((pm.map (fun e =>
        (TreeNode.leaves e.2).map (fun x => ((":" ++ e.1) :: x.1, x.2)))).flatten).Nodup := by
      rw [List.nodup_flatten]
      constructor
      · rintro l hl
        obtain ⟨e, he, rfl⟩ := List.mem_map.mp hl
        refine List.Nodup.map ?_ (ih6 e he)
        intro a b hab
        injection hab with hab1 hab2
        injection hab1 with _ hab1
        exact Prod.ext hab1 hab2
      · rw [List.pairwise_map]
        have hp1 : List.Pairwise (fun a b : String × TreeNode => a.1 ≠ b.1) pm := by
          have h := h2
          rw [mapKeys] at h
          exact (List.pairwise_map).mp h
        refine hp1.imp ?_
        intro a b hne x hx hx'
        obtain ⟨u, _, rfl⟩ := List.mem_map.mp hx
        obtain ⟨w, _, heq⟩ := List.mem_map.mp hx'
        injection heq with heq1 _
        injection heq1 with heq1 _
        exact hne (colon_append_inj heq1).symm
    rw [List.nodup_append, List.nodup_append]
    refine ⟨⟨hA, hB, ?_⟩, hC, ?_⟩
    · -- A and B are disjoint: empty path versus a path with a head segment
      intro x hxA hxB
      obtain ⟨e, _, rfl⟩ := List.mem_map.mp hxA
      obtain ⟨l, hl, hx⟩ := List.mem_flatten.mp hxB
      obtain ⟨e', _, rfl⟩ := List.mem_map.mp hl
      obtain ⟨u, _, heq⟩ := List.mem_map.mp hx
      injection heq with heq1 _
      cases heq1
    · -- A ++ B and C are disjoint
      intro x hxAB hxC
      obtain ⟨l, hl, hx⟩ := List.mem_flatten.mp hxC
      obtain ⟨e', he', rfl⟩ := List.mem_map.mp hl
      obtain ⟨u, _, hequ⟩ := List.mem_map.mp hx
      rcases List.mem_append.mp hxAB with hxA | hxB
      · obtain ⟨e, _, rfl⟩ := List.mem_map.mp hxA
        injection hequ with heq1 _
        cases heq1
      · obtain ⟨l2, hl2, hx2⟩ := List.mem_flatten.mp hxB
        obtain ⟨e2, he2, rfl⟩ := List.mem_map.mp hl2
        obtain ⟨w, _, heqw⟩ := List.mem_map.mp hx2
        rw [← heqw] at hequ
        injection hequ with heq1 _
        injection heq1 with heq1 _
        have hcol : strStartsWith e2.1 ":" = true := by
          rw [← heq1]
          exact strStartsWith_colon_append e'.1
        rw [h4 e2 he2] at hcol
        cases hcol

/-- **Claim C1.**  For every normalized route list, building the tree and
enumerating every leaf `(path, method)` pair — each entry of a node's
`methods` map together with the route path (as segments) leading to that node
— yields exactly the set of `(path, method)` pairs of the input, with no
duplicates and no omissions, where a method of a route at its final segment
is registered exactly when `settings[method].disabled` is not true. -/
theorem c1_buildCompleteTree_leaves (routes : List ProcessedRoute) :
    ((buildCompleteTree routes).leaves).Nodup ∧
    ∀ (p : List String) (m : String),
      ((p, m) ∈ (buildCompleteTree routes).leaves ↔
        ∃ r ∈ routes, pathSegments r.path = p ∧ m ∈ r.methods ∧
          methodDisabled r m = false) := by
  constructor
  · exact nodup_leaves _ (treeWF_buildCompleteTree routes)
  · intro p m
    rw [buildCompleteTree,
      mem_leaves_foldl routes emptyTreeNode p m treeWF_empty, leaves_empty]
    simp

/-! ## Route normalizer (`processRoutes` of `code-generator.ts`) -/

/-- `(settings as {disabled?: boolean})?.disabled` truthiness: the route-level
disabled filter. -/
def routeDisabled (route : Route) : Bool :=
  jsTruthy (jsGetFieldOpt route.settings "disabled")

/-- `typeof v === 'object' && v !== null` on a possibly-`undefined` value. -/
def jsIsNonNullObject : Option JsonValue → Bool
  | some (.arr _) => true
  | some (.obj _) => true
  | _ => false

/-- `Object.keys(schema || {}).filter(m => m !== 'params' && typeof schema[m]
=== 'object' && schema[m] !== null)`: the derived method list.  (`Object.keys`
of a non-object dynamic value yields no keys here.) -/
def derivedMethods (route : Route) : List String :=
  match route.schema with
  | some (.obj fields) =>
      (fields.map Prod.fst).filter (fun method =>
        method ≠ "params" ∧
          jsIsNonNullObject (jsGetField (.obj fields) method) = true)
  | _ => []

/-- `route.methods && route.methods.length > 0 ? route.methods : derived`. -/
def availableMethods (route : Route) : List String :=
  match route.methods with
  | some ms => if ms.length > 0 then ms else derivedMethods route
  | none => derivedMethods route

/-- `schema && typeof (schema as Record<string, unknown>).params === 'object'`
(note: no null check, so `params: null` also counts, `typeof null` being
`'object'` in JS). -/
def hasParamsSchema (route : Route) : Bool :=
  jsTruthy route.schema &&
    (match jsGetFieldOpt route.schema "params" with
     | some v => jsTypeofObject v
     | none => false)

/-- Result of `processRoutes`: the processed routes plus the two counters. -/
structure ProcessResult where
  routes : List ProcessedRoute
  totalGeneratedRoutes : Nat
  totalGeneratedMethods : Nat
deriving Repr

/-- One iteration of the `routes.forEach` body of `processRoutes`. -/
def processRoutesStep (acc : ProcessResult) (route : Route) : ProcessResult :=
  if routeDisabled route then acc
  else
    let avail := availableMethods route
    if avail.length = 0 then
      if ¬ hasParamsSchema route then acc
      else
        { routes := acc.routes ++
            [{ path := route.path, methods := ["GET"], schema := route.schema,
               settings := route.settings }],
          totalGeneratedRoutes := acc.totalGeneratedRoutes + 1,
          totalGeneratedMethods := acc.totalGeneratedMethods + 1 }
    else
      { routes := acc.routes ++
          [{ path := route.path, methods := avail, schema := route.schema,
             settings := route.settings }],
        totalGeneratedRoutes := acc.totalGeneratedRoutes + 1,
        totalGeneratedMethods := acc.totalGeneratedMethods + avail.length }

/-- `processRoutes(routes)` of `code-generator.ts`. -/
def processRoutes (routes : List Route) : ProcessResult :=
  routes.foldl processRoutesStep ⟨[], 0, 0⟩

/-! ### Claim C6: claim-side formulation -/

/-- Claim C6 as stated reads "synthesizes GET if the route's schema carries a
`params` object": the value at key `params` is an actual (non-null) object. -/
def carriesParamsObject (route : Route) : Bool :=
  jsIsNonNullObject (jsGetFieldOpt route.schema "params")

/-- Claim-side effective-method computation, amended: the explicit non-empty
method list verbatim; else the keys of `schema` other than `params` with
non-null object values; when that list is empty, the single default `GET`
when the schema value at key `params` has JS typeof `'object'` (which
includes `null` and arrays), and `none` (route discarded) otherwise. -/
def claimEffectiveMethods (route : Route) : Option (List String) :=
  let derivedOrDefault :=
    if derivedMethods route ≠ [] then some (derivedMethods route)
    else if hasParamsSchema route then some ["GET"] else none
  match route.methods with
  | some ms => if ms ≠ [] then some ms else derivedOrDefault
  | none => derivedOrDefault

/-- The per-route decision of claim C6 (amended), as a partial map used to
characterize `processRoutes`. -/
def claimRouteDecision (route : Route) : Option ProcessedRoute :=
  if routeDisabled route then none
  else (claimEffectiveMethods route).map (fun ms =>
    { path := route.path, methods := ms, schema := route.schema,
      settings := route.settings })

theorem processRoutesStep_routes (acc : ProcessResult) (route : Route) :
    (processRoutesStep acc route).routes =
      acc.routes ++ (claimRouteDecision route).toList := by
  by_cases hdis : routeDisabled route = true
  · simp [processRoutesStep, claimRouteDecision, hdis]
  · rcases hms : route.methods with _ | ms
    · by_cases hder : derivedMethods route = []
      · by_cases hpar : hasParamsSchema route = true
        · simp [processRoutesStep, claimRouteDecision, claimEffectiveMethods,
            availableMethods, hdis, hms, hder, hpar]
        · simp [processRoutesStep, claimRouteDecision, claimEffectiveMethods,
            availableMethods, hdis, hms, hder, hpar]
      · simp [processRoutesStep, claimRouteDecision, claimEffectiveMethods,
          availableMethods, hdis, hms, hder, List.length_eq_zero]
    · by_cases hempty : ms = []
      · subst hempty
        by_cases hder : derivedMethods route = []
        · by_cases hpar : hasParamsSchema route = true
          · simp [processRoutesStep, claimRouteDecision, claimEffectiveMethods,
              availableMethods, hdis, hms, hder, hpar]
          · simp [processRoutesStep, claimRouteDecision, claimEffectiveMethods,
              availableMethods, hdis, hms, hder, hpar]
        · simp [processRoutesStep, claimRouteDecision, claimEffectiveMethods,
            availableMethods, hdis, hms, hder, List.length_eq_zero]
      · simp [processRoutesStep, claimRouteDecision, claimEffectiveMethods,
          availableMethods, hdis, hms, hempty, List.length_eq_zero,
          List.length_pos]

theorem processRoutes_foldl_append (routes : List Route) :
    ∀ (acc : ProcessResult),
      (routes.foldl processRoutesStep acc).routes =
        acc.routes ++ routes.filterMap claimRouteDecision := by
  induction routes with
  | nil => intro acc; simp
  | cons route rest ih =>
    intro acc
    rw [List.foldl_cons, ih, processRoutesStep_routes]
    rcases hd : claimRouteDecision route with _ | r
    · simp [List.filterMap_cons, hd]
    · simp [List.filterMap_cons, hd]

/-- The route at the heart of the claim C6 counterexample: no methods, a
schema carrying `params: null`. -/
def c6Route : Route :=
  { path := "/x", schema := some (.obj [("params", JsonValue.null)]) }

/-- **Claim C6, counterexample.**  For a route with no explicit or derivable
methods whose schema carries `params: null`, the claim as stated predicts the
route is discarded (the schema does not carry a params *object*), but
`processRoutes` keeps it with the synthesized method list `["GET"]`, because
the code tests `typeof schema.params === 'object'` and `typeof null` is
`'object'` in JS. -/
theorem c6_counterexample :
    carriesParamsObject c6Route = false ∧
    (processRoutes [c6Route]).routes.map ProcessedRoute.methods = [["GET"]] := by
  constructor
  · rfl
  · rfl

/-- **Claim C6 (amended).**  `processRoutes` keeps exactly the non-disabled
routes for which an effective method list exists: the explicit non-empty
`methods` list verbatim when declared, else the keys of `schema` other than
the reserved key `params` whose values are non-null objects; when that list
is empty the single default method `GET` is synthesized if the schema value
at key `params` has JS typeof `'object'` (so `params: null` also counts),
and otherwise the route is discarded. -/
theorem c6_processRoutes_amended (routes : List Route) :
    (processRoutes routes).routes = routes.filterMap claimRouteDecision := by
  rw [processRoutes, processRoutes_foldl_append]
  rfl

/-! ## Descriptor-to-type converter (`type-converter.ts`)

A Zod definition object `{def?: {type, innerType?, element?, shape?,
options?, enum?, entries?, values?, value?, getter?}, __fileOptions?}` is
modelled as one inductive: the `undef` constructor is a descriptor whose
`.def` is missing (falsy), `mk` carries the `def` fields inline plus the
`__fileOptions` payload.  The lazy `getter` thunk is modelled by its
resolved outcome: `some none` is a getter whose call throws, `some (some d)`
one that returns `d` (cyclic lazy schemas, on which the source would not
terminate, are not representable). -/

structure FileOptions where
  multiple : Option Bool := none
  required : Option Bool := none
  maxFiles : Option Int := none
  allowedExtensions : Option (List String) := none
  maxSize : Option Int := none
deriving Repr

inductive ZodDef where
  | undef (fileOptions : Option FileOptions)
  | mk (type : String)
       (innerType : Option ZodDef)
       (element : Option ZodDef)
       (shape : Option (List (String × ZodDef)))
       (options : Option (List ZodDef))
       (enumValues : Option (List JsonValue))
       (entries : Option (List (String × JsonValue)))
       (values : Option (List JsonValue))
       (value : Option JsonValue)
       (getter : Option (Option ZodDef))
       (fileOptions : Option FileOptions)

/-- `zodDef.def?.type`. -/
def ZodDef.defType : ZodDef → Option String
  | .undef _ => none
  | .mk t _ _ _ _ _ _ _ _ _ _ => some t

/-- `zodDef.__fileOptions`. -/
def ZodDef.fileOpts : ZodDef → Option FileOptions
  | .undef fo => fo
  | .mk _ _ _ _ _ _ _ _ _ _ fo => fo

/-- Does `needle` occur as a contiguous sublist of the second list? -/
def listContainsSublist (needle : List Char) : List Char → Bool
  | [] => needle.isEmpty
  | x :: xs => needle.isPrefixOf (x :: xs) || listContainsSublist needle xs

/-- JS `a.includes(b)` on strings. -/
def strIncludes (s sub : String) : Bool := listContainsSublist sub.data s.data

/-- String conversion inside a template literal (the enum branch's
`` `"${value}"` ``): JS `String(value)`; an array joins its elements with
commas, where a `null` element inside an array renders as the empty string
(the `inArray` flag). -/
def jsToString : JsonValue → Bool → String
  | .null, inArray => if inArray then "" else "null"
  | .bool b, _ => if b then "true" else "false"
  | .num n, _ => toString n
  | .str s, _ => s
  | .arr xs, _ => String.intercalate ","
      (xs.attach.map (fun e => jsToString e.1 true))
  | .obj _, _ => "[object Object]"
decreasing_by
  · have h1 := List.sizeOf_lt_of_mem e.2
    simp only [JsonValue.arr.sizeOf_spec]
    omega

/-- `JSON.stringify` of a JSON value (string escaping elided, as no claim
evaluates it on strings needing escapes). -/
def jsonStringify : JsonValue → String
  | .null => "null"
  | .bool b => if b then "true" else "false"
  | .num n => toString n
  | .str s => "\"" ++ s ++ "\""
  | .arr xs => "[" ++ String.intercalate ","
      (xs.attach.map (fun e => jsonStringify e.1)) ++ "]"
  | .obj fs => "\x7b" ++ String.intercalate ","
      (fs.attach.map (fun e => "\"" ++ e.1.1 ++ "\":" ++ jsonStringify e.1.2)) ++ "\x7d"
decreasing_by
  · have h1 := List.sizeOf_lt_of_mem e.2
    simp only [JsonValue.arr.sizeOf_spec]
    omega
  · obtain ⟨⟨k, v⟩, hmem⟩ := e
    have h1 := List.sizeOf_lt_of_mem hmem
    simp only [Prod.mk.sizeOf_spec] at h1
    simp only [JsonValue.obj.sizeOf_spec]
    omega

/-- `zodDefToTypeScript(zodDef, isOptional, log)` of `type-converter.ts`
(the logger, used only for debug output, is dropped).  The bodies of the
source's helper functions `convertEnumType`, `convertLiteralType`,
`convertLazyType`, `convertArrayType`, `convertObjectType` and
`convertUnionType` are inlined at their call sites; standalone wrappers with
the source names are defined below.

`fuel` bounds the recursion depth: the source function recurses without a
bound and terminates exactly on descriptors of finite depth (its `lazy`
getters can otherwise loop), while Lean needs a decreasing argument.  Every
result below instantiates `fuel` strictly above the depth of the descriptors
involved, where the bound is never reached. -/
def zodDefToTypeScript (fuel : Nat) (zodDef : Option ZodDef) (isOptional : Bool) : String :=
  match fuel with
  | 0 => "any"
  | fuel + 1 =>
    match zodDef with
    | none => "any"
    | some (.undef _) => "any"
    | some (.mk type innerType element shape options enumValues entries values value getter _) =>
      if type = "string" then "string"
      else if type = "number" then "number"
      else if type = "boolean" then "boolean"
      else if type = "date" then "Date"
      else if type = "enum" then
        -- convertEnumType
        match enumValues, entries with
        | some vs, _ => String.intercalate " | " (vs.map (fun v => "\"" ++ jsToString v false ++ "\""))
        | none, some es => String.intercalate " | " (es.map (fun e => "\"" ++ e.1 ++ "\""))
        | none, none => "string"
      else if type = "any" then "any"
      else if type = "never" then "never"
      else if type = "null" then "null"
      else if type = "literal" then
        -- convertLiteralType
        match values, value with
        | some vs, _ => String.intercalate " | " (vs.map (fun v =>
            match v with
            | .str s => "\"" ++ s ++ "\""
            | .bool b => if b then "true" else "false"
            | .num n => toString n
            | .null => "null"
            | v' => jsonStringify v'))
        | none, some v =>
            (match v with
            | .str s => "\"" ++ s ++ "\""
            | .bool b => if b then "true" else "false"
            | .num n => toString n
            | .null => "null"
            | v' => jsonStringify v')
        | none, none => "any"
      else if type = "optional" then zodDefToTypeScript fuel innerType true
      else if type = "nonoptional" then
        match innerType with
        | some inner => zodDefToTypeScript fuel (some inner) isOptional
        | none => "any"
      else if type = "default" then
        match innerType with
        | some inner => zodDefToTypeScript fuel (some inner) true
        | none => "any"
      else if type = "nullable" then
        (match innerType with
         | some inner => zodDefToTypeScript fuel (some inner) false
         | none => "any") ++ " | null"
      else if type = "lazy" then
        -- convertLazyType: call the getter, degrade to any on a throw
        match getter with
        | some (some lazySchema) => zodDefToTypeScript fuel (some lazySchema) false
        | some none => "any"
        | none => "any"
      else if type = "array" then
        -- convertArrayType
        let elementType := match element with
          | some el => zodDefToTypeScript fuel (some el) false
          | none => "any"
        let wrappedElementType := if strIncludes elementType " | " then
            "(" ++ elementType ++ ")"
          else elementType
        wrappedElementType ++ "[]"
      else if type = "object" then
        -- convertObjectType
        match shape with
        | none => "Record<string, any>"
        | some fields =>
          "\x7b " ++ String.intercalate "; " (fields.map (fun f =>
            let fieldType := zodDefToTypeScript fuel (some f.2) false
            let optionalMark := match f.2.defType with
              | some "optional" => "?"
              | some "default" => "?"
              | _ => ""
            f.1 ++ optionalMark ++ ": " ++ fieldType)) ++ " \x7d"
      else if type = "union" then
        -- convertUnionType
        match options with
        | some opts => String.intercalate " | "
            (opts.map (fun opt => zodDefToTypeScript fuel (some opt) false))
        | none => "any"
      else if type = "void" then "void"
      else "any"

/-- `convertArrayType(def, log)` as a standalone function of `def.element`. -/
def convertArrayType (fuel : Nat) (element : Option ZodDef) : String :=
  let elementType := match element with
    | some el => zodDefToTypeScript fuel (some el) false
    | none => "any"
  let wrappedElementType := if strIncludes elementType " | " then
      "(" ++ elementType ++ ")"
    else elementType
  wrappedElementType ++ "[]"

/-- `convertUnionType(def, log)` as a standalone function of `def.options`. -/
def convertUnionType (fuel : Nat) (options : Option (List ZodDef)) : String :=
  match options with
  | some opts => String.intercalate " | "
      (opts.map (fun opt => zodDefToTypeScript fuel (some opt) false))
  | none => "any"

/-- `hasRequiredFields(zodDef)` of `type-converter.ts`: `false` when the
descriptor is missing or has no `def`; for an object with a shape, whether
some field is neither `optional` nor `default`; `true` otherwise. -/
def hasRequiredFields (zodDef : Option ZodDef) : Bool :=
  match zodDef with
  | none => false
  | some (.undef _) => false
  | some (.mk type _ _ shape _ _ _ _ _ _ _) =>
    match shape with
    | some fields =>
        if type = "object" then
          fields.any (fun f =>
            f.2.defType ≠ some "optional" ∧ f.2.defType ≠ some "default")
        else true
    | none => true

/-- Method schema `{body?, query?, response?, files?}`. -/
structure MethodSchema where
  body : Option ZodDef := none
  query : Option ZodDef := none
  response : Option ZodDef := none
  files : Option ZodDef := none

/-- `hasFileUploads(methodSchema)`: the `files` descriptor is present, has a
`def` of type exactly `'any'`, and carries a `__fileOptions` payload. -/
def hasFileUploads (methodSchema : Option MethodSchema) : Bool :=
  match methodSchema with
  | none => false
  | some ms =>
    match ms.files with
    | none => false
    | some filesDef =>
      match filesDef with
      | .undef _ => false
      | .mk type _ _ _ _ _ _ _ _ _ fileOptions =>
          type = "any" && fileOptions.isSome

/-- File upload information with defaults applied. -/
structure FileUploadInfo where
  multiple : Bool
  required : Bool
  maxFiles : Int
  allowedExtensions : List String
  maxSize : Int
deriving Repr, DecidableEq

/-- `getFileUploadInfo(methodSchema)`: `null` without uploads, else the
`__fileOptions` payload with JS `||` defaults (`multiple: false`, `required:
false`, `maxFiles: 1`, `allowedExtensions: []`, `maxSize: 5242880`; note `||`
also replaces a falsy `0`). -/
def getFileUploadInfo (methodSchema : Option MethodSchema) : Option FileUploadInfo :=
  if ¬ hasFileUploads methodSchema then none
  else
    match methodSchema with
    | some ms =>
      match ms.files with
      | some filesDef =>
        let fileOptions := filesDef.fileOpts.getD {}
        some
          { multiple := fileOptions.multiple.getD false,
            required := fileOptions.required.getD false,
            maxFiles := match fileOptions.maxFiles with
              | some n => if n = 0 then 1 else n
              | none => 1,
            allowedExtensions := fileOptions.allowedExtensions.getD [],
            maxSize := match fileOptions.maxSize with
              | some n => if n = 0 then 5242880 else n
              | none => 5242880 }
      | none => none
    | none => none

/-! ## Method signature generation (`generateMethodSignature` of
`code-generator.ts`).  `methodSchema` is `route.schema?.[method]` (passed
explicitly, `Route.schema` being opaque JSON in this embedding); the `parts`
array pushed by the source is split into its body, query and file
contributions, each paired with its `hasRequiredOptions` flag. -/

/-- The response type: a generated name in separate-types mode when a
response descriptor exists, else the converted descriptor, else `any`. -/
def signatureResponseType (fuel : Nat) (route : Route) (method : String)
    (methodSchema : Option MethodSchema) (separateTypes : Bool) : String :=
  match methodSchema with
  | some ms =>
    match ms.response with
    | some r =>
        if separateTypes then generateTypeName route method "ResponseBody"
        else zodDefToTypeScript fuel (some r) false
    | none => "any"
  | none => "any"

/-- The `body...` entry pushed into `parts`, with its required flag. -/
def signatureBodyPart (fuel : Nat) (route : Route) (method : String)
    (methodSchema : Option MethodSchema) (separateTypes : Bool) :
    List String × Bool :=
  match methodSchema with
  | some ms =>
    match ms.body with
    | some bodyDef =>
      let bodyType := if separateTypes then
          generateTypeName route method "RequestBody"
        else zodDefToTypeScript fuel (some bodyDef) false
      let bodyRequired := bodyType ≠ "any" ∧ hasRequiredFields (some bodyDef)
      (["body" ++ (if bodyRequired then "" else "?") ++ ": " ++ bodyType],
        bodyRequired)
    | none => ([], false)
  | none => ([], false)

/-- The `query...` entry pushed into `parts`, with its required flag. -/
def signatureQueryPart (fuel : Nat) (route : Route) (method : String)
    (methodSchema : Option MethodSchema) (separateTypes : Bool) :
    List String × Bool :=
  match methodSchema with
  | some ms =>
    match ms.query with
    | some queryDef =>
      let queryType := if separateTypes then
          generateTypeName route method "RequestQuery"
        else zodDefToTypeScript fuel (some queryDef) false
      let queryRequired := queryType ≠ "any" ∧ hasRequiredFields (some queryDef)
      (["query" ++ (if queryRequired then "" else "?") ++ ": " ++ queryType],
        queryRequired)
    | none => ([], false)
  | none => ([], false)

/-- The `file`/`files` entry pushed into `parts`, with its required flag. -/
def signatureFileParts (methodSchema : Option MethodSchema) :
    List String × Bool :=
  if hasFileUploads methodSchema then
    match getFileUploadInfo methodSchema with
    | some fileInfo =>
        if fileInfo.multiple then
          (["files" ++ (if fileInfo.required then "" else "?") ++ ": File[]"],
            fileInfo.required)
        else
          (["file" ++ (if fileInfo.required then "" else "?") ++ ": File"],
            fileInfo.required)
    | none => (["file?: File"], false)
  else ([], false)

/-- `generateMethodSignature(route, method, ..., separateTypes, log)`. -/
def generateMethodSignature (fuel : Nat) (route : Route) (method : String)
    (methodSchema : Option MethodSchema) (separateTypes : Bool) : String :=
  let hasBody := match methodSchema with
    | some ms => ms.body.isSome
    | none => false
  let hasQuery := match methodSchema with
    | some ms => ms.query.isSome
    | none => false
  let hasFiles := hasFileUploads methodSchema
  let responseType := signatureResponseType fuel route method methodSchema separateTypes
  if !hasBody && !hasQuery && !hasFiles then
    "() => Promise<" ++ responseType ++ ">"
  else
    let bodyPart := signatureBodyPart fuel route method methodSchema separateTypes
    let queryPart := signatureQueryPart fuel route method methodSchema separateTypes
    let fileParts := signatureFileParts methodSchema
    let parts := bodyPart.1 ++ queryPart.1 ++ fileParts.1
    let hasRequiredOptions := bodyPart.2 || queryPart.2 || fileParts.2
    "(options" ++ (if hasRequiredOptions then "" else "?") ++ ": \x7b " ++
      String.intercalate "; " parts ++ " \x7d) => Promise<" ++ responseType ++ ">"

/-! ### Claim C5: array-of-union wrapping -/

/-- `{kind: string}` -/
def zodStringDef : ZodDef := .mk "string" none none none none none none none none none none

/-- `{kind: number}` -/
def zodNumberDef : ZodDef := .mk "number" none none none none none none none none none none

/-- `{kind: union, options: [string, number]}` -/
def zodStringNumberUnion : ZodDef :=
  .mk "union" none none none (some [zodStringDef, zodNumberDef]) none none none none none none

/-- `{kind: array, element: {kind: union, options: [string, number]}}` -/
def zodArrayOfUnion : ZodDef :=
  .mk "array" none (some zodStringNumberUnion) none none none none none none none none

/-- `{kind: array, element: {kind: string}}` -/
def zodArrayOfString : ZodDef :=
  .mk "array" none (some zodStringDef) none none none none none none none none

/-- `{kind: array, element: {kind: number}}` -/
def zodArrayOfNumber : ZodDef :=
  .mk "array" none (some zodNumberDef) none none none none none none none none

/-- **Claim C5.**  Converting an array descriptor whose element converts to a
union type produces the element type wrapped in parentheses before the array
suffix (`(string | number)[]`), while converting a union of two array
descriptors produces the two array types joined with `|`, not
parenthesized. -/
theorem c5_array_union_wrapping :
    zodDefToTypeScript 10 (some zodArrayOfUnion) false = "(string | number)[]" ∧
    convertArrayType 10 (some zodStringNumberUnion) = "(string | number)[]" ∧
    zodDefToTypeScript 10 (some (.mk "union" none none none
      (some [zodArrayOfString, zodArrayOfNumber]) none none none none none none))
      false = "string[] | number[]" ∧
    convertUnionType 10 (some [zodArrayOfString, zodArrayOfNumber]) =
      "string[] | number[]" := by
  refine ⟨by decide, by decide, by decide, by decide⟩

/-! ### Claim C9: `hasRequiredFields` -/

/-- The rule claim C9 states: true unless the descriptor is an object whose
every field is individually optional or defaulted; for every descriptor that
is not an object at all, true. -/
def claimHasRequiredFields (zodDef : Option ZodDef) : Bool :=
  match zodDef with
  | some (.mk type _ _ (some fields) _ _ _ _ _ _ _) =>
      if type = "object" then
        !(fields.all (fun f =>
          f.2.defType = some "optional" ∨ f.2.defType = some "default"))
      else true
  | _ => true

/-- **Claim C9, counterexample.**  A missing descriptor, or one without a
`def`, is "not an object at all", so the claim predicts `true`; the code
returns `false` (`if (!zodDef || !zodDef.def) return false`), making the
generated options argument optional rather than required for such callers. -/
theorem c9_counterexample :
    claimHasRequiredFields none = true ∧
    hasRequiredFields none = false ∧
    claimHasRequiredFields (some (.undef none)) = true ∧
    hasRequiredFields (some (.undef none)) = false := by
  refine ⟨rfl, rfl, rfl, rfl⟩

/-- **Claim C9 (amended).**  `hasRequiredFields` returns `false` when the
descriptor is missing or carries no `def`; on every other descriptor it
follows the claim's rule: true unless the descriptor is an object (with a
shape) whose every field is individually optional or defaulted.
Consequently a present but `def`-less body descriptor leaves the generated
options argument optional. -/
theorem c9_hasRequiredFields_amended :
    (∀ zodDef : Option ZodDef,
       hasRequiredFields zodDef =
         match zodDef with
         | none => false
         | some (.undef _) => false
         | some d => claimHasRequiredFields (some d)) ∧
    generateMethodSignature 10 { path := "/x" } "POST"
      (some { body := some (.undef none) }) false =
      "(options?: { body?: any }) => Promise<any>" := by
  constructor
  · intro zodDef
    match zodDef with
    | none => rfl
    | some (.undef _) => rfl
    | some (.mk t i e sh o ev en vs v g fo) =>
      cases sh with
      | none => rfl
      | some fields =>
        simp only [hasRequiredFields, claimHasRequiredFields]
        by_cases ht : t = "object"
        · rw [if_pos ht, if_pos ht, Bool.eq_iff_iff]
          simp only [List.any_eq_true, Bool.not_eq_true', List.all_eq_false,
            decide_eq_true_eq, not_or, ne_eq]
        · rw [if_neg ht, if_neg ht]
  · decide

/-! ### Claim C10: file uploads -/

/-- **Claim C10.**  A `files` descriptor is treated as a file upload exactly
when its `def.type` is `'any'` and it carries a `__fileOptions` payload;
otherwise `hasFileUploads` is false, `getFileUploadInfo` is null and the
emitted method signature gets no `file`/`files` options entry.  When file
options are present with all metadata missing, the defaults are
`multiple = false`, `required = false`, `maxFiles = 1`,
`allowedExtensions = []`, `maxSize = 5242880`. -/
theorem c10_fileUploads :
    (∀ methodSchema : Option MethodSchema,
       hasFileUploads methodSchema = false →
         getFileUploadInfo methodSchema = none ∧
         signatureFileParts methodSchema = ([], false)) ∧
    (∀ filesDef : ZodDef,
       hasFileUploads (some { files := some filesDef }) =
         (filesDef.defType = some "any" && filesDef.fileOpts.isSome)) ∧
    getFileUploadInfo (some { files := some (.mk "any" none none none none
        none none none none none (some {})) }) =
      some { multiple := false, required := false, maxFiles := 1,
             allowedExtensions := [], maxSize := 5242880 } := by
  refine ⟨?_, ?_, by decide⟩
  · intro ms h
    constructor
    · rw [getFileUploadInfo.eq_def, if_pos (by simp [h])]
    · rw [signatureFileParts, if_neg (by simp [h])]
  · intro filesDef
    cases filesDef with
    | undef fo => rfl
    | mk t i e sh o ev en vs v g fo =>
      simp [hasFileUploads, ZodDef.defType, ZodDef.fileOpts]

/-- Witness for claim C10's conditional part, at the empty method schema. -/
theorem c10_fileUploads_witness :
    hasFileUploads (none : Option MethodSchema) = false ∧
    getFileUploadInfo (none : Option MethodSchema) = none ∧
    signatureFileParts (none : Option MethodSchema) = ([], false) :=
  ⟨by decide, (c10_fileUploads.1 none (by decide)).1,
    (c10_fileUploads.1 none (by decide)).2⟩

/-! ## Runtime request client (`base-client.ts`, retry variant)

The embedding models the attempt loop of the `request` function returned by
`createRequest`: everything from `const maxAttempts = maxRetries + 1` on.
URL assembly and body encoding, which happen before the loop and do not
affect response handling, stay outside the model; the loop receives the
final URL string.  The transport (`makeRequest`, i.e. `fetch`/`proxyFn`) is
modelled as a function from the attempt index to the response it returns.
`retryOnRatelimit : Option Int` models `number | false` (`none` = `false`);
a possibly-NaN JS number is an `Option Int` with `none` for NaN. -/

/-- Digit-prefix value for `parseInt`: `none` when no leading digit (NaN). -/
def parseIntDigits (l : List Char) : Option Nat :=
  let ds := l.takeWhile Char.isDigit
  if ds.isEmpty then none
  else some (ds.foldl (fun acc c => acc * 10 + (c.toNat - '0'.toNat)) 0)

/-- JS `parseInt(s, 10)`: skip leading whitespace, optional sign, then the
longest digit prefix; `none` models NaN. -/
def parseIntJs (s : String) : Option Int :=
  match s.data.dropWhile Char.isWhitespace with
  | '-' :: rest => (parseIntDigits rest).map (fun n => -(n : Int))
  | '+' :: rest => (parseIntDigits rest).map (fun n => (n : Int))
  | l => (parseIntDigits l).map (fun n => (n : Int))

/-- `Headers.get(name)`: case-insensitive header lookup (first match). -/
def headerGet (headers : List (String × String)) (name : String) : Option String :=
  match headers with
  | [] => none
  | (k, v) :: rest =>
      if strToLower k = strToLower name then some v else headerGet rest name

/-- JS truthiness of a string-or-null (`Headers.get` result): `null` and the
empty string are falsy. -/
def strTruthy : Option String → Bool
  | none => false
  | some s => s ≠ ""

/-- One transport response, as the loop observes it: status line, headers,
and the outcomes of `response.json()` (`none` when the body is not valid
JSON, so the call rejects) and `response.text()`. -/
structure MockResponse where
  status : Nat
  statusText : String := ""
  headers : List (String × String) := []
  jsonBody : Option JsonValue := none
  textBody : String := ""

/-- `Response.ok`: status in the inclusive range 200–299. -/
def MockResponse.ok (r : MockResponse) : Bool :=
  200 ≤ r.status && r.status ≤ 299

/-- The parsed failure body: JSON or text. -/
inductive ResponseBodyValue where
  | json (v : JsonValue)
  | text (s : String)

/-- The failure-path body parse: JSON when the `content-type` header
contains `application/json` (an empty object when parsing fails), the text
body otherwise. -/
def parseFailureBody (r : MockResponse) : ResponseBodyValue :=
  let contentType := headerGet r.headers "content-type"
  let isJson := match contentType with
    | some ct => strIncludes ct "application/json"
    | none => false
  if isJson then
    match r.jsonBody with
    | some v => .json v
    | none => .json (.obj [])
  else .text r.textBody

/-- `responseBody?.data` on the parsed failure body. -/
def bodyDataField : ResponseBodyValue → Option JsonValue
  | .json v => jsGetField v "data"
  | .text _ => none

/-- The `errorInfo` record passed to `RequestError` / `ValidationError`. -/
structure ErrorInfo where
  status : Nat
  statusText : String
  url : String
  method : String
  headers : List (String × String)
  body : ResponseBodyValue

/-- The outcome of the request function: a resolved value (`none` models
`undefined`), a thrown `ValidationError` (with its `validationData`), a
thrown `RequestError`, a success-path `response.json()` rejection, or the
source's final `throw new Error('Unexpected error: ...')` when the loop runs
zero iterations. -/
inductive RequestOutcome where
  | success (v : Option JsonValue)
  | validationError (info : ErrorInfo) (validationData : JsonValue)
  | requestError (info : ErrorInfo)
  | jsonFailure (status : Nat)
  | unexpectedEnd

/-- The non-retried failure handling: parse the body, then throw
`ValidationError` when the status is exactly 400, the case-insensitively
fetched `x-bad-request-type` header lower-cases to `zod`, and
`responseBody?.data` is truthy; otherwise throw `RequestError`. -/
def classifyFailure (url method : String) (r : MockResponse) : RequestOutcome :=
  let responseBody := parseFailureBody r
  let badRequestType := (headerGet r.headers "x-bad-request-type").map strToLower
  let info : ErrorInfo :=
    { status := r.status, statusText := r.statusText, url := url,
      method := strToUpper method, headers := r.headers, body := responseBody }
  if r.status = 400 ∧ badRequestType = some "zod" ∧
      jsTruthy (bodyDataField responseBody) = true then
    .validationError info ((bodyDataField responseBody).getD .null)
  else
    .requestError info

/-- The wait-interval computation of the 429 branch: `x-ratelimit-reset-after`
parsed as milliseconds; else `x-ratelimit-reset` as an absolute timestamp
minus `Date.now()` floored at 0; else 1000; the result clamped by
`Math.min(Math.max(waitTime, 0), 300000)`.  `none` models NaN (an unparsable
header), which the clamp propagates. -/
def computeWaitTime (r : MockResponse) (now : Int) : Option Int :=
  let resetAfter := headerGet r.headers "x-ratelimit-reset-after"
  let reset := headerGet r.headers "x-ratelimit-reset"
  let waitTime : Option Int :=
    if strTruthy resetAfter then parseIntJs (resetAfter.getD "")
    else if strTruthy reset then
      match parseIntJs (reset.getD "") with
      | some ts => some (max 0 (ts - now))
      | none => none
    else some 1000
  waitTime.map (fun w => min (max w 0) 300000)

/-- The success handling and non-retried failure handling of one loop
iteration: on OK, `undefined` for 204, else `(await response.json()).data`;
otherwise the thrown error per `classifyFailure`. -/
def handleResponse (url method : String) (r : MockResponse) : RequestOutcome :=
  if r.ok then
    if r.status = 204 then .success none
    else
      match r.jsonBody with
      | some v => .success (jsGetField v "data")
      | none => .jsonFailure r.status
  else classifyFailure url method r

/-- The attempt loop `for (let attempt = 0; attempt < maxAttempts;
attempt++)`, with `rem = maxAttempts - attempt` as the structural fuel.  An
attempt is retried (wait recorded, loop continues) exactly when the response
is not OK, has status 429, `retryOnRatelimit !== false`, and
`attempt < maxRetries`; otherwise the iteration resolves or throws via
`handleResponse`.  Returns the recorded sleep durations and the outcome. -/
def requestLoop (url method : String) (retryOnRatelimit : Option Int)
    (responses : Nat → MockResponse) (now : Int) :
    Nat → Nat → List (Option Int) × RequestOutcome
  | 0, _ => ([], .unexpectedEnd)
  | rem + 1, attempt =>
    let r := responses attempt
    let maxRetries : Int := retryOnRatelimit.getD 0
    if r.ok = false ∧ r.status = 429 ∧ retryOnRatelimit.isSome = true ∧
        (attempt : Int) < maxRetries then
      let w := computeWaitTime r now
      let rest := requestLoop url method retryOnRatelimit responses now rem (attempt + 1)
      (w :: rest.1, rest.2)
    else ([], handleResponse url method r)

/-- The request function (from `const maxAttempts = maxRetries + 1` on):
runs the loop from attempt 0 with `maxAttempts` iterations available. -/
def performRequest (url method : String) (retryOnRatelimit : Option Int)
    (responses : Nat → MockResponse) (now : Int) :
    List (Option Int) × RequestOutcome :=
  let maxRetries : Int := retryOnRatelimit.getD 0
  requestLoop url method retryOnRatelimit responses now (maxRetries + 1).toNat 0

/-- A loop iteration with attempts remaining retries a non-OK 429 when a
budget is configured and not exhausted: it records the computed wait and
continues with the next attempt. -/
theorem requestLoop_retry_step (url method : String) (retryOnRatelimit : Option Int)
    (responses : Nat → MockResponse) (now : Int) (rem attempt : Nat)
    (hok : (responses attempt).ok = false)
    (h429 : (responses attempt).status = 429)
    (hsome : retryOnRatelimit.isSome = true)
    (hlt : (attempt : Int) < retryOnRatelimit.getD 0) :
    requestLoop url method retryOnRatelimit responses now (rem + 1) attempt =
      (computeWaitTime (responses attempt) now ::
         (requestLoop url method retryOnRatelimit responses now rem (attempt + 1)).1,
       (requestLoop url method retryOnRatelimit responses now rem (attempt + 1)).2) := by
  simp only [requestLoop]
  rw [if_pos ⟨hok, h429, hsome, hlt⟩]

/-- A loop iteration whose attempt counter has reached the retry budget never
retries: the iteration resolves or throws via `handleResponse`. -/
theorem requestLoop_stop (url method : String) (retryOnRatelimit : Option Int)
    (responses : Nat → MockResponse) (now : Int) (rem attempt : Nat)
    (hexh : ¬ ((attempt : Int) < retryOnRatelimit.getD 0)) :
    requestLoop url method retryOnRatelimit responses now (rem + 1) attempt =
      ([], handleResponse url method (responses attempt)) := by
  simp only [requestLoop]
  rw [if_neg fun hc => hexh hc.2.2.2]

/-! ### Claim C8: success handling -/

/-- **Claim C8.**  For every OK response (with a non-negative retry budget,
so the attempt loop runs at all), the request function resolves `undefined`
when the status is 204 and otherwise parses the body as JSON and resolves
its `data` field. -/
theorem c8_success_response (url method : String) (retryOnRatelimit : Option Int)
    (responses : Nat → MockResponse) (now : Int)
    (hbudget : 0 ≤ retryOnRatelimit.getD 0)
    (hok : (responses 0).ok = true) :
    ((responses 0).status = 204 →
      performRequest url method retryOnRatelimit responses now =
        ([], .success none)) ∧
    (∀ v, ¬ (responses 0).status = 204 → (responses 0).jsonBody = some v →
      performRequest url method retryOnRatelimit responses now =
        ([], .success (jsGetField v "data"))) := by
  obtain ⟨rem, hrem⟩ : ∃ rem, (retryOnRatelimit.getD 0 + 1).toNat = rem + 1 :=
    ⟨(retryOnRatelimit.getD 0).toNat, by omega⟩
  constructor
  · intro h204
    simp only [performRequest]
    rw [hrem]
    simp only [requestLoop]
    rw [if_neg (by simp [hok])]
    simp [handleResponse, hok, h204]
  · intro v hn204 hjson
    simp only [performRequest]
    rw [hrem]
    simp only [requestLoop]
    rw [if_neg (by simp [hok])]
    simp [handleResponse, hok, hn204, hjson]

/-- Witness for claim C8: a 200 response with body `{data: "hi"}` resolves
`"hi"`, and a 204 response resolves `undefined`. -/
theorem c8_success_response_witness :
    performRequest "http://localhost:3000/users" "get" none
      (fun _ => { status := 200,
                  jsonBody := some (.obj [("data", .str "hi")]) }) 0 =
      ([], .success (some (.str "hi"))) ∧
    performRequest "http://localhost:3000/users" "delete" none
      (fun _ => { status := 204 }) 0 = ([], .success none) := by
  constructor
  · exact ((c8_success_response "http://localhost:3000/users" "get" none
      (fun _ => { status := 200, jsonBody := some (.obj [("data", .str "hi")]) }) 0
      (by decide) (by decide)).2 (.obj [("data", .str "hi")])
      (by decide) rfl).trans (by rfl)
  · exact (c8_success_response "http://localhost:3000/users" "delete" none
      (fun _ => { status := 204 }) 0 (by decide) (by decide)).1 rfl

/-! ### Claim C2: failure classification -/

/-- The response of the claim C2 counterexample: status 400, header
`x-bad-request-type: zod`, JSON body `{data: 0}` — the body *carries* a
`data` field, but a falsy one. -/
def c2Response : MockResponse :=
  { status := 400, statusText := "Bad Request",
    headers := [("content-type", "application/json"),
                ("x-bad-request-type", "zod")],
    jsonBody := some (.obj [("data", .num 0)]) }

/-- **Claim C2, counterexample.**  The code checks `responseBody?.data` for
truthiness, not presence: a 400 + zod response whose parsed body carries
`data: 0` is thrown as a generic `RequestError`, while the claim ("exactly
when ... the parsed body carries a data field") predicts a
`ValidationError`. -/
theorem c2_counterexample :
    (bodyDataField (parseFailureBody c2Response)).isSome = true ∧
    classifyFailure "http://localhost:3000/x" "post" c2Response =
      .requestError { status := 400, statusText := "Bad Request",
                      url := "http://localhost:3000/x", method := "POST",
                      headers := [("content-type", "application/json"),
                                  ("x-bad-request-type", "zod")],
                      body := .json (.obj [("data", .num 0)]) } := by
  exact ⟨rfl, rfl⟩

/-- **Claim C2 (amended).**  Every non-OK response that the request function
raises (a 429 may instead be consumed by the rate-limit retry; the budget is
taken non-negative) throws exactly the classification of that response: the
body is parsed as JSON when the content type says JSON (empty object on
parse failure) and as text otherwise, and the throw is a `ValidationError`
carrying the validation payload exactly when the status is 400, the
case-insensitively fetched `x-bad-request-type` header equals `zod` up to
case, and the parsed body's `data` field is *truthy*; otherwise it is a
`RequestError`; either error carries status, statusText, URL, upper-cased
method, headers and the parsed body. -/
theorem c2_failure_amended :
    (∀ (url method : String) (retryOnRatelimit : Option Int)
       (responses : Nat → MockResponse) (now : Int),
       0 ≤ retryOnRatelimit.getD 0 →
       (responses 0).ok = false →
       ¬((responses 0).status = 429 ∧ retryOnRatelimit.isSome = true ∧
          0 < retryOnRatelimit.getD 0) →
       performRequest url method retryOnRatelimit responses now =
         ([], classifyFailure url method (responses 0))) ∧
    (∀ (url method : String) (r : MockResponse),
       ((∃ info d, classifyFailure url method r = .validationError info d) ↔
          (r.status = 400 ∧
           (headerGet r.headers "x-bad-request-type").map strToLower = some "zod" ∧
           jsTruthy (bodyDataField (parseFailureBody r)) = true)) ∧
       (∀ info d, classifyFailure url method r = .validationError info d →
          d = (bodyDataField (parseFailureBody r)).getD .null ∧
          info = { status := r.status, statusText := r.statusText, url := url,
                   method := strToUpper method, headers := r.headers,
                   body := parseFailureBody r }) ∧
       (∀ info, classifyFailure url method r = .requestError info →
          info = { status := r.status, statusText := r.statusText, url := url,
                   method := strToUpper method, headers := r.headers,
                   body := parseFailureBody r })) := by
  constructor
  · intro url method retryOnRatelimit responses now hbudget hnok hnoretry
    obtain ⟨rem, hrem⟩ : ∃ rem, (retryOnRatelimit.getD 0 + 1).toNat = rem + 1 :=
      ⟨(retryOnRatelimit.getD 0).toNat, by omega⟩
    simp only [performRequest]
    rw [hrem]
    simp only [requestLoop]
    rw [if_neg ?_]
    · simp [handleResponse, hnok]
    · rintro ⟨_, h2, h3, h4⟩
      exact hnoretry ⟨h2, h3, by exact_mod_cast h4⟩
  · intro url method r
    by_cases hcond : r.status = 400 ∧
        (headerGet r.headers "x-bad-request-type").map strToLower = some "zod" ∧
        jsTruthy (bodyDataField (parseFailureBody r)) = true
    · refine ⟨⟨fun _ => hcond, fun _ => ?_⟩, ?_, ?_⟩
      · exact ⟨_, _, by simp only [classifyFailure]; rw [if_pos hcond]⟩
      · intro info d heq
        simp only [classifyFailure] at heq
        rw [if_pos hcond] at heq
        injection heq with h1 h2
        exact ⟨h2.symm, h1.symm⟩
      · intro info heq
        simp only [classifyFailure] at heq
        rw [if_pos hcond] at heq
        cases heq
    · refine ⟨⟨?_, fun hc => absurd hc hcond⟩, ?_, ?_⟩
      · rintro ⟨info, d, heq⟩
        simp only [classifyFailure] at heq
        rw [if_neg hcond] at heq
        cases heq
      · intro info d heq
        simp only [classifyFailure] at heq
        rw [if_neg hcond] at heq
        cases heq
      · intro info heq
        simp only [classifyFailure] at heq
        rw [if_neg hcond] at heq
        injection heq with h1
        exact h1.symm

/-- Witness for claim C2: a plain 500 text failure throws a `RequestError`
with the claimed fields. -/
theorem c2_failure_amended_witness :
    performRequest "http://localhost:3000/x" "get" none
      (fun _ => { status := 500, statusText := "Internal Server Error",
                  textBody := "boom" }) 0 =
      ([], classifyFailure "http://localhost:3000/x" "get"
        { status := 500, statusText := "Internal Server Error",
          textBody := "boom" }) ∧
    classifyFailure "http://localhost:3000/x" "get"
        { status := 500, statusText := "Internal Server Error",
          textBody := "boom" } =
      .requestError { status := 500, statusText := "Internal Server Error",
                      url := "http://localhost:3000/x", method := "GET",
                      headers := [], body := .text "boom" } := by
  constructor
  · exact c2_failure_amended.1 "http://localhost:3000/x" "get" none
      (fun _ => { status := 500, statusText := "Internal Server Error",
                  textBody := "boom" }) 0 (by decide) (by decide)
      (by rintro ⟨h, _, _⟩; cases h)
  · rfl

/-! ### Claim C3: rate-limit retry -/

/-- **Claim C3.**  A non-OK 429 with a configured budget whose attempt count
is below the budget waits the computed interval and retries; the interval
comes from `x-ratelimit-reset-after`, else from `x-ratelimit-reset` minus
the current time, else is 1000 ms, clamped to `[0, 300000]`; with the
budget exhausted the iteration resolves or throws like any other response;
and the concrete scenario: a 429 carrying `x-ratelimit-reset-after: 50`
under `retryOnRatelimit: 1` waits 50 ms once and retries exactly once, the
outcome being whatever the second attempt's response yields. -/
theorem c3_ratelimit_retry :
    (∀ (url method : String) (retryOnRatelimit : Option Int)
       (responses : Nat → MockResponse) (now : Int) (rem attempt : Nat),
       (responses attempt).ok = false →
       (responses attempt).status = 429 →
       retryOnRatelimit.isSome = true →
       (attempt : Int) < retryOnRatelimit.getD 0 →
       requestLoop url method retryOnRatelimit responses now (rem + 1) attempt =
         (computeWaitTime (responses attempt) now ::
            (requestLoop url method retryOnRatelimit responses now rem (attempt + 1)).1,
          (requestLoop url method retryOnRatelimit responses now rem (attempt + 1)).2)) ∧
    (∀ (r : MockResponse) (now k : Int),
       (strTruthy (headerGet r.headers "x-ratelimit-reset-after") = true →
          parseIntJs ((headerGet r.headers "x-ratelimit-reset-after").getD "") = some k →
          computeWaitTime r now = some (min (max k 0) 300000)) ∧
       (strTruthy (headerGet r.headers "x-ratelimit-reset-after") = false →
          strTruthy (headerGet r.headers "x-ratelimit-reset") = true →
          parseIntJs ((headerGet r.headers "x-ratelimit-reset").getD "") = some k →
          computeWaitTime r now = some (min (max 0 (k - now)) 300000)) ∧
       (strTruthy (headerGet r.headers "x-ratelimit-reset-after") = false →
          strTruthy (headerGet r.headers "x-ratelimit-reset") = false →
          computeWaitTime r now = some 1000)) ∧
    (∀ (url method : String) (retryOnRatelimit : Option Int)
       (responses : Nat → MockResponse) (now : Int) (rem attempt : Nat),
       ¬ ((attempt : Int) < retryOnRatelimit.getD 0) →
       requestLoop url method retryOnRatelimit responses now (rem + 1) attempt =
         ([], handleResponse url method (responses attempt))) ∧
    (∀ (url method : String) (responses : Nat → MockResponse) (now : Int),
       responses 0 = { status := 429,
                       headers := [("x-ratelimit-reset-after", "50")] } →
       performRequest url method (some 1) responses now =
         ([some 50], handleResponse url method (responses 1))) := by
  refine ⟨requestLoop_retry_step, ?_, requestLoop_stop, ?_⟩
  · intro r now k
    refine ⟨?_, ?_, ?_⟩
    · intro h1 hk
      simp [computeWaitTime, h1, hk]
    · intro h1 h2 hk
      simp only [computeWaitTime, h1, h2, hk, Bool.false_eq_true, if_false,
        if_true, Option.map_some']
      congr 1
      omega
    · intro h1 h2
      simp [computeWaitTime, h1, h2]
  · intro url method responses now h0
    have hok : (responses 0).ok = false := by rw [h0]; decide
    have h429 : (responses 0).status = 429 := by rw [h0]
    have hw : computeWaitTime (responses 0) now = some 50 := by rw [h0]; rfl
    have hstop : requestLoop url method (some 1) responses now 1 1 =
        ([], handleResponse url method (responses 1)) :=
      requestLoop_stop url method (some 1) responses now 0 1 (by decide)
    have hstep : requestLoop url method (some 1) responses now 2 0 =
        (computeWaitTime (responses 0) now ::
           (requestLoop url method (some 1) responses now 1 1).1,
         (requestLoop url method (some 1) responses now 1 1).2) :=
      requestLoop_retry_step url method (some 1) responses now 1 0 hok h429 rfl
        (by decide)
    calc performRequest url method (some 1) responses now
        = requestLoop url method (some 1) responses now 2 0 := rfl
      _ = ([some 50], handleResponse url method (responses 1)) := by
          rw [hstep, hstop, hw]

/-- Witness for claim C3: a first response of 429 with
`x-ratelimit-reset-after: 50` and a second OK response under a budget of 1
yields exactly one 50 ms wait and the second attempt's success value. -/
theorem c3_ratelimit_retry_witness :
    performRequest "http://localhost:3000/x" "get" (some 1)
      (fun i => if i = 0 then
          { status := 429, headers := [("x-ratelimit-reset-after", "50")] }
        else { status := 200, jsonBody := some (.obj [("data", .str "ok")]) }) 0 =
      ([some 50], .success (some (.str "ok"))) := by
  exact (c3_ratelimit_retry.2.2.2 "http://localhost:3000/x" "get"
    (fun i => if i = 0 then
        { status := 429, headers := [("x-ratelimit-reset-after", "50")] }
      else { status := 200, jsonBody := some (.obj [("data", .str "ok")]) }) 0
    rfl).trans (by rfl)

/-! ## Validation-error flattening (`src/lib/errors.ts`)

`ValidationError.getErrorMessagesByPath` walks the validation payload with a
recursive `collectErrors(obj, currentPath)` helper; the resulting
`Record<string, string[]>` is modelled as an insertion-ordered association
list written through `mapSet`. -/

/-- Decimal rendering of a `Nat` (JS array indices seen by `for..in`). -/
def natToStrAux : Nat → Nat → List Char
  | 0, _ => []
  | fuel + 1, n =>
    if n < 10 then [Char.ofNat (48 + n)]
    else natToStrAux fuel (n / 10) ++ [Char.ofNat (48 + n % 10)]

/-- Decimal rendering of a `Nat`. -/
def natToStr (n : Nat) : String := ⟨natToStrAux (n + 1) n⟩

/-- `for (const key in obj)` own enumerable entries: an object's fields in
insertion order, an array's elements keyed by their decimal indices, nothing
for primitives. -/
def jsOwnEntries : JsonValue → List (String × JsonValue)
  | .obj fields => fields
  | .arr elems => ((List.range elems.length).zip elems).map
      (fun iv => (natToStr iv.1, iv.2))
  | _ => []

/-- The recursive `collectErrors(obj, currentPath)` of
`getErrorMessagesByPath`: returns on a falsy or non-object value; if
`obj._errors` is a non-empty array, its string elements (when any) are stored
under `currentPath || 'root'`; then every own key other than `_errors` is
traversed with the extended dot path.  The mutable `errorsByPath` record is
threaded as an accumulator; recursion depth is bounded by a fuel argument
(the JS recursion is over a finite acyclic JSON value, so enough fuel makes
the model exact). -/
def collectErrorsByPath : Nat → JsonValue → String →
    List (String × List String) → List (String × List String)
  | 0, _, _, acc => acc
  | fuel + 1, obj, currentPath, acc =>
    if jsTruthy (some obj) && jsTypeofObject obj then
      let acc1 :=
        match jsGetField obj "_errors" with
        | some (.arr es) =>
          if es.length > 0 then
            let messages := es.filterMap
              (fun e => match e with | .str s => some s | _ => none)
            if messages.length > 0 then
              mapSet acc (if currentPath = "" then "root" else currentPath)
                messages
            else acc
          else acc
        | _ => acc
      (jsOwnEntries obj).foldl
        (fun a kv =>
          if kv.1 = "_errors" then a
          else collectErrorsByPath fuel kv.2
            (if currentPath = "" then kv.1 else currentPath ++ "." ++ kv.1) a)
        acc1
    else acc

/-- `ValidationError.getErrorMessagesByPath()`: empty for a falsy
`validationData`, else the record collected from the payload rooted at the
empty path. -/
def getErrorMessagesByPath (fuel : Nat) (validationData : Option JsonValue) :
    List (String × List String) :=
  match validationData with
  | none => []
  | some d => if jsTruthy (some d) then collectErrorsByPath fuel d "" [] else []

/-! ### Claim C7: validation-error scenario -/

/-- The claim C7 response: 400, `x-bad-request-type: zod`, JSON body
`{data: {body: {email: {_errors: ["invalid"]}}}}`. -/
def c7Response : MockResponse :=
  { status := 400, statusText := "Bad Request",
    headers := [("content-type", "application/json"),
                ("x-bad-request-type", "zod")],
    jsonBody := some (.obj [("data", .obj [("body", .obj [("email",
      .obj [("_errors", .arr [.str "invalid"])])])])]) }

/-- **Claim C7.**  The 400 + zod response with body
`{data: {body: {email: {_errors: ["invalid"]}}}}` classifies as a
`ValidationError`, and flattening its validation payload by path maps
`"body.email"` to `["invalid"]`. -/
theorem c7_validation_error_paths :
    ∃ info data,
      classifyFailure "http://localhost:3000/x" "post" c7Response =
        .validationError info data ∧
      mapGet (getErrorMessagesByPath 4 (some data)) "body.email" =
        some ["invalid"] := by
  exact ⟨_, _, rfl, by decide⟩

/-! ### Instantiation witnesses for the universally quantified claims -/

/-- A concrete route list for instantiating claim C1. -/
def c1WitnessRoutes : List ProcessedRoute :=
  [{ path := "/users/:id", methods := ["GET", "POST"] }]

/-- Witness for claim C1 at a concrete route list. -/
theorem c1_buildCompleteTree_leaves_witness :
    ((buildCompleteTree c1WitnessRoutes).leaves).Nodup ∧
    ∀ (p : List String) (m : String),
      ((p, m) ∈ (buildCompleteTree c1WitnessRoutes).leaves ↔
        ∃ r ∈ c1WitnessRoutes, pathSegments r.path = p ∧ m ∈ r.methods ∧
          methodDisabled r m = false) :=
  c1_buildCompleteTree_leaves c1WitnessRoutes

/-- Witness for claim C4 (amended) at a concrete route, method and suffix. -/
theorem c4_generateTypeName_amended_witness :
    generateTypeName { path := "/organisations/:orgId/departments" } "GET"
        "ResponseBody" =
      "GET".take 1 ++ strToLower ("GET".drop 1)
        ++ String.join (specPathParts
             (pathSegments "/organisations/:orgId/departments") false false)
        ++ (if specSuffixSeparator
              (pathSegments "/organisations/:orgId/departments")
            then "$" else "")
        ++ "ResponseBody" :=
  c4_generateTypeName_amended.1 { path := "/organisations/:orgId/departments" }
    "GET" "ResponseBody"

/-- Witness for claim C6 (amended) at a concrete route list. -/
theorem c6_processRoutes_amended_witness :
    (processRoutes [c6Route]).routes = [c6Route].filterMap claimRouteDecision :=
  c6_processRoutes_amended [c6Route]

/-- Witness for claim C9 (amended) at a concrete descriptor. -/
theorem c9_hasRequiredFields_amended_witness :
    hasRequiredFields (some zodStringDef) =
      match some zodStringDef with
      | none => false
      | some (.undef _) => false
      | some d => claimHasRequiredFields (some d) :=
  c9_hasRequiredFields_amended.1 (some zodStringDef)

end LixqaApiClient
